import Mathlib

/-!
Verification of the tx3 language server's positional symbol-resolution and
semantic-annotation core (`src/lib.rs`, `src/server.rs`, `src/visitor.rs`)
against its natural-language specification.

Modelling conventions:
* Rust `String` / `&str` / `ropey::Rope` values are modelled as `List Char`;
  all offsets are counted in characters, matching the source which indexes
  ropes and spans by char index.
* `usize`/`u32` are modelled as `Nat`; Rust `saturating_sub` is `Nat`
  subtraction (both truncate at zero).
* Rust early-return loops are modelled by left-biased choice (`oor`) and
  first-hit list scans (`firstSome`); since all code involved is pure and
  total, the values agree with the short-circuiting source.
* External collaborators (the `tx3_lang` parser/analyzer and the LSP
  transport) are modelled as parameters or as data types mirroring the
  fields the repository reads.
-/

/-- Half-open span of absolute char offsets, mirroring `tx3_lang::ast::Span`
(`start` inclusive, `end` exclusive; the Rust field `end` is rendered `stop`). -/
structure Span where
  start : Nat
  stop : Nat
deriving DecidableEq, Repr

/-- Constructor mirroring `Span::new(start, end)`. -/
def Span.new (s e : Nat) : Span := ⟨s, e⟩

/-- Mirrors `span_contains` in `src/lib.rs`: `offset >= span.start && offset < span.end`. -/
def span_contains (span : Span) (offset : Nat) : Bool :=
  span.start ≤ offset && offset < span.stop

/-- LSP `Position`: zero-based line / character pair (`u32` fields as `Nat`). -/
structure Position where
  line : Nat
  character : Nat
deriving DecidableEq, Repr

/-- LSP `Range`: start and end positions (field `end` rendered `stop`). -/
structure Range where
  start : Position
  stop : Position
deriving DecidableEq, Repr

/-! ### Text model: Rust `str::lines` and ropey line indexing -/

/-- Model of Rust `str::split_inclusive('\n')`: cuts the text after every
newline, keeping the newline at the end of its piece; an empty text yields
no pieces. -/
def splitIncNl : List Char → List (List Char)
  | [] => []
  | c :: cs =>
    if c = '\n' then ['\n'] :: splitIncNl cs
    else
      match splitIncNl cs with
      | [] => [[c]]
      | l :: ls => (c :: l) :: ls

/-- Model of the per-line map inside Rust `str::lines`: strip one trailing
`'\n'`, and if one was stripped also strip one trailing `'\r'`. -/
def stripLineTerm (l : List Char) : List Char :=
  if l.getLast? = some '\n' then
    if l.dropLast.getLast? = some '\r' then l.dropLast.dropLast else l.dropLast
  else l

/-- Model of Rust `str::lines`: `split_inclusive('\n')` with terminators
(`'\n'` or `"\r\n"`) stripped from each piece. -/
def rustLines (t : List Char) : List (List Char) :=
  (splitIncNl t).map stripLineTerm

/-- UTF-8 byte length of a char list: models Rust `str::len()`, which counts
bytes, not chars (`line.len()` in `position_to_offset`). -/
def strByteLen (l : List Char) : Nat :=
  l.foldr (fun c acc => c.utf8Size + acc) 0

/-- Loop body of `position_to_offset` (`src/lib.rs`): walk the lines; on the
target line add the column clamped to the line's *byte* length (`line.len()`)
and stop; otherwise add the line's byte length plus one for its newline.
Falling off the end of the list models the Rust loop terminating without
hitting the target line. -/
def posToOffsetAux : List (List Char) → Nat → Nat → Nat
  | [], _, _ => 0
  | l :: rest, line, ch =>
    if line = 0 then min ch (strByteLen l)
    else strByteLen l + 1 + posToOffsetAux rest (line - 1) ch

/-- Mirrors `position_to_offset` in `src/lib.rs`. -/
def position_to_offset (t : List Char) (position : Position) : Nat :=
  posToOffsetAux (rustLines t) position.line position.character

/-- Model of `ropey::Rope::char_to_line`: the index of the line containing
char `idx`, i.e. the number of newline chars strictly before `idx`.
The model splits lines on `'\n'` only; theorems that depend on it carry a
hypothesis excluding the other line-break characters ropey may recognize. -/
def ropeCharToLine (t : List Char) (idx : Nat) : Nat :=
  (t.take idx).count '\n'

/-- Model of `ropey::Rope::line_to_char`: the char index at which the given
line starts (one past its preceding newline). -/
def ropeLineToChar : List Char → Nat → Nat
  | _, 0 => 0
  | [], _ + 1 => 0
  | c :: cs, n + 1 => 1 + ropeLineToChar cs (if c = '\n' then n else n + 1)

/-- Mirrors `char_index_to_line_col` in `src/lib.rs`: line via
`char_to_line`, column as `idx - line_to_char(line)`. -/
def char_index_to_line_col (t : List Char) (idx : Nat) : Nat × Nat :=
  let line := ropeCharToLine t idx
  (line, idx - ropeLineToChar t line)

/-- Mirrors `span_to_lsp_range` in `src/lib.rs`. -/
def span_to_lsp_range (t : List Char) (loc : Span) : Range :=
  let sp := char_index_to_line_col t loc.start
  let ep := char_index_to_line_col t loc.stop
  ⟨⟨sp.1, sp.2⟩, ⟨ep.1, ep.2⟩⟩

/-- Sum of `line byte length + 1` over a line list: the offset
`position_to_offset` returns when the requested line is beyond the last
line. -/
def sumLineLens (ls : List (List Char)) : Nat :=
  ls.foldr (fun l acc => strByteLen l + 1 + acc) 0

/-- Unicode line-break characters recognized by ropey's default line
segmentation (LF, VT, FF, CR, NEL, LS, PS).  The text model in this file
splits on LF only, so theorems about `char_index_to_line_col` restrict texts
to ones whose only line-break character is LF. -/
def isLineBreakChar (c : Char) : Bool :=
  c = '\n' || c = '\r' || c = Char.ofNat 11 || c = Char.ofNat 12 ||
    c = Char.ofNat 133 || c = Char.ofNat 8232 || c = Char.ofNat 8233

/-- Splits a char list at its first `'\n'`: returns the (newline-free)
prefix and, when a newline exists, the remainder after it.  Used to phrase
induction over the line structure of a text. -/
def splitFirstNl : List Char → List Char × Option (List Char)
  | [] => ([], none)
  | c :: cs =>
    if c = '\n' then ([], some cs)
    else
      let r := splitFirstNl cs
      (c :: r.1, r.2)

/-! ### AST model (the slice of `tx3_lang::ast` the repository reads) -/

/-- Mirrors `tx3_lang::ast::Identifier`: a name string plus its own span. -/
structure Identifier where
  value : List Char
  span : Span
deriving DecidableEq, Repr

/-- Mirrors `tx3_lang::ast::PropertyAccess` as read by the visitor: an object
identifier plus a path of identifiers. -/
structure PropertyAccess where
  object : Identifier
  path : List Identifier
deriving DecidableEq, Repr

mutual
/-- Mirrors the `tx3_lang::ast::Type` enum as read by the visitor and hover:
primitive variants, `Custom(Identifier)` and `List(TypeRecord)`;
`otherTy` stands for the remaining variants the repository never inspects. -/
inductive TypeTy where
  | int : TypeTy
  | bool : TypeTy
  | bytes : TypeTy
  | custom (id : Identifier) : TypeTy
  | listTy (inner : TypeRecord) : TypeTy
  | otherTy : TypeTy

/-- Mirrors `tx3_lang::ast::TypeRecord`: a type plus its span. -/
inductive TypeRecord where
  | mk (ty : TypeTy) (span : Span) : TypeRecord
end

deriving instance DecidableEq for TypeTy, TypeRecord

/-- Field accessor for `TypeRecord.ty` (Rust field `r#type`). -/
def TypeRecord.ty : TypeRecord → TypeTy
  | .mk t _ => t

/-- Field accessor for `TypeRecord.span`. -/
def TypeRecord.span : TypeRecord → Span
  | .mk _ s => s

mutual
/-- Mirrors `tx3_lang::ast::DataExpr` as read by the visitor: identifier,
struct constructor, list constructor, property access, binary operation;
`otherData` stands for the variants matched by the visitor's `_` arm.
Rust's `Vec<DataExpr>` / `Option<DataExpr>` in recursive positions are
rendered as the dedicated mutual types `DataExprList` / `DataExprOpt`. -/
inductive DataExpr where
  | identifier (id : Identifier) : DataExpr
  | structConstructor (sc : StructConstructor) : DataExpr
  | listConstructor (elements : DataExprList) : DataExpr
  | propertyAccess (pa : PropertyAccess) : DataExpr
  | binaryOp (left right : DataExpr) : DataExpr
  | otherData : DataExpr

/-- Mirrors `tx3_lang::ast::StructConstructor`: a type identifier and a
variant-case constructor. -/
inductive StructConstructor where
  | mk (ty : Identifier) (case : VariantCaseConstructor) : StructConstructor

/-- Mirrors `tx3_lang::ast::VariantCaseConstructor`: case name, record
constructor fields and an optional spread expression. -/
inductive VariantCaseConstructor where
  | mk (name : Identifier) (fields : RcfList) (spread : DataExprOpt) :
      VariantCaseConstructor

/-- Mirrors `tx3_lang::ast::RecordConstructorField`: field name and value. -/
inductive RecordConstructorField where
  | mk (name : Identifier) (value : DataExpr) : RecordConstructorField

/-- List of `DataExpr` (Rust `Vec<DataExpr>` in a recursive position). -/
inductive DataExprList where
  | nil : DataExprList
  | cons (head : DataExpr) (tail : DataExprList) : DataExprList

/-- List of `RecordConstructorField` (Rust `Vec<RecordConstructorField>`). -/
inductive RcfList where
  | nil : RcfList
  | cons (head : RecordConstructorField) (tail : RcfList) : RcfList

/-- Optional `DataExpr` (Rust `Option<DataExpr>` in a recursive position). -/
inductive DataExprOpt where
  | none : DataExprOpt
  | some (e : DataExpr) : DataExprOpt
end

/-- Mirrors `tx3_lang::ast::AssetExpr` as read by the visitor; the
constructor structs (`StaticAssetConstructor`, `AnyAssetConstructor`) are
inlined as constructor arguments with the same field order. -/
inductive AssetExpr where
  | identifier (id : Identifier) : AssetExpr
  | staticConstructor (ty : Identifier) (amount : DataExpr) : AssetExpr
  | anyConstructor (policy assetName amount : DataExpr) : AssetExpr
  | binaryOp (left right : AssetExpr) : AssetExpr
  | propertyAccess (pa : PropertyAccess) : AssetExpr

/-- Mirrors `tx3_lang::ast::AddressExpr` as read by the visitor: the
`Identifier` variant plus a stand-in for the variants matched by `_`. -/
inductive AddressExpr where
  | identifier (id : Identifier) : AddressExpr
  | otherAddress : AddressExpr

/-- Mirrors `tx3_lang::ast::InputBlockField`. -/
inductive InputBlockField where
  | from_ (addr : AddressExpr) : InputBlockField
  | datumIs (ty : TypeRecord) : InputBlockField
  | minAmount (expr : AssetExpr) : InputBlockField
  | redeemer (expr : DataExpr) : InputBlockField
  | ref (expr : DataExpr) : InputBlockField

/-- Mirrors `tx3_lang::ast::InputBlock`: name string, span and fields. -/
structure InputBlock where
  name : List Char
  span : Span
  fields : List InputBlockField

/-- Mirrors `tx3_lang::ast::OutputBlockField`. -/
inductive OutputBlockField where
  | to_ (addr : AddressExpr) : OutputBlockField
  | amount (expr : AssetExpr) : OutputBlockField
  | datum (expr : DataExpr) : OutputBlockField

/-- Mirrors `tx3_lang::ast::OutputBlock`: optional name, span and fields. -/
structure OutputBlock where
  name : Option (List Char)
  span : Span
  fields : List OutputBlockField

/-- Mirrors `tx3_lang::ast::MintBlockField` (also used by burn blocks). -/
inductive MintBlockField where
  | amount (expr : AssetExpr) : MintBlockField
  | redeemer (expr : DataExpr) : MintBlockField

/-- Mirrors `tx3_lang::ast::MintBlock`. -/
structure MintBlock where
  fields : List MintBlockField

/-- Mirrors `tx3_lang::ast::BurnBlock` (fields share `MintBlockField`). -/
structure BurnBlock where
  fields : List MintBlockField

/-- Mirrors `tx3_lang::ast::ReferenceBlock`: name string, span and the
referenced expression (field `r#ref`). -/
structure ReferenceBlock where
  name : List Char
  span : Span
  ref : DataExpr

/-- Mirrors `tx3_lang::ast::ChainSpecificBlock`; the visitor never inspects
its contents. -/
structure ChainSpecificBlock where
  dummy : Unit

/-- Mirrors `tx3_lang::ast::CollateralBlockField`. -/
inductive CollateralBlockField where
  | from_ (addr : AddressExpr) : CollateralBlockField
  | minAmount (expr : AssetExpr) : CollateralBlockField
  | ref (expr : DataExpr) : CollateralBlockField

/-- Mirrors `tx3_lang::ast::CollateralBlock`. -/
structure CollateralBlock where
  fields : List CollateralBlockField

/-- Mirrors `tx3_lang::ast::SignersBlock`. -/
structure SignersBlock where
  signers : List DataExpr

/-- Mirrors `tx3_lang::ast::ValidityBlockField`. -/
inductive ValidityBlockField where
  | sinceSlot (expr : DataExpr) : ValidityBlockField
  | untilSlot (expr : DataExpr) : ValidityBlockField

/-- Mirrors `tx3_lang::ast::ValidityBlock`. -/
structure ValidityBlock where
  fields : List ValidityBlockField

/-- Mirrors `tx3_lang::ast::MetadataBlock`; the visitor never inspects it. -/
structure MetadataBlock where
  dummy : Unit

/-- Mirrors `tx3_lang::ast::ParameterDef`: parameter name and type
(Rust field `r#type`). -/
structure ParameterDef where
  name : Identifier
  ty : TypeRecord

/-- Mirrors `tx3_lang::ast::ParameterList`: parameters plus the span of the
whole list. -/
structure ParameterList where
  parameters : List ParameterDef
  span : Span

/-- Mirrors `tx3_lang::ast::TxDef` (the fields the repository reads). -/
structure TxDef where
  name : Identifier
  span : Span
  parameters : ParameterList
  inputs : List InputBlock
  outputs : List OutputBlock
  mints : List MintBlock
  references : List ReferenceBlock
  adhoc : List ChainSpecificBlock
  collateral : List CollateralBlock
  signers : Option SignersBlock
  validity : Option ValidityBlock
  burn : Option BurnBlock
  metadata : Option MetadataBlock

/-- Mirrors `tx3_lang::ast::PartyDef`: name identifier and span. -/
structure PartyDef where
  name : Identifier
  span : Span

/-- Mirrors `tx3_lang::ast::PolicyField`. -/
inductive PolicyField where
  | hash (expr : DataExpr) : PolicyField
  | script (expr : DataExpr) : PolicyField
  | ref (expr : DataExpr) : PolicyField

/-- Mirrors `tx3_lang::ast::PolicyConstructor` as read by the visitor. -/
structure PolicyConstructor where
  fields : List PolicyField

/-- Mirrors `tx3_lang::ast::PolicyValue`: constructor or direct assignment
(the assigned literal is never inspected). -/
inductive PolicyValue where
  | constructor (c : PolicyConstructor) : PolicyValue
  | assign (dummy : Unit) : PolicyValue

/-- Mirrors `tx3_lang::ast::PolicyDef`. -/
structure PolicyDef where
  name : Identifier
  span : Span
  value : PolicyValue

/-- Mirrors `tx3_lang::ast::RecordField`: field name and type. -/
structure RecordField where
  name : Identifier
  ty : TypeRecord

/-- Mirrors `tx3_lang::ast::VariantCase` as read by the visitor. -/
structure VariantCase where
  fields : List RecordField

/-- Mirrors `tx3_lang::ast::TypeDef`: name, span and variant cases. -/
structure TypeDef where
  name : Identifier
  span : Span
  cases : List VariantCase

/-- Mirrors `tx3_lang::ast::AssetDef`: name string, span, policy and asset
name expressions. -/
structure AssetDef where
  name : List Char
  span : Span
  policy : DataExpr
  assetName : DataExpr

/-- Mirrors `tx3_lang::ast::Program`: the root tree of declarations. -/
structure Program where
  parties : List PartyDef
  policies : List PolicyDef
  types : List TypeDef
  assets : List AssetDef
  txs : List TxDef

/-! ### Tree visitor (`src/visitor.rs`) -/

/-- Left-biased choice on options: models Rust's
`if let Some(sym) = f(..) { return Some(sym) }` early-return sequencing. -/
def oor {α : Type} (a b : Option α) : Option α :=
  match a with
  | some x => some x
  | none => b

/-- First hit of `f` over a list: models a Rust `for` loop that returns the
first `Some` produced by its body. -/
def firstSome {α β : Type} (f : α → Option β) : List α → Option β
  | [] => none
  | a :: rest => oor (f a) (firstSome f rest)

/-- Mirrors `SymbolAtOffset` in `src/visitor.rs`. -/
inductive SymbolAtOffset where
  | identifier (id : Identifier) : SymbolAtOffset
  | typeIdentifier (tr : TypeRecord) : SymbolAtOffset
deriving DecidableEq

/-- Mirrors `in_span` in `src/visitor.rs`:
`span.start <= offset && offset < span.end`. -/
def in_span (span : Span) (offset : Nat) : Bool :=
  span.start ≤ offset && offset < span.stop

/-- Mirrors `visit_identifier`. -/
def visit_identifier (id : Identifier) (offset : Nat) : Option SymbolAtOffset :=
  if in_span id.span offset then some (.identifier id) else none

/-- Scan of an identifier list, as in the path loop of
`visit_property_access`. -/
def visit_id_list (ids : List Identifier) (offset : Nat) : Option SymbolAtOffset :=
  firstSome (fun id => visit_identifier id offset) ids

/-- Mirrors `visit_property_access`: object identifier, then each path
identifier in order. -/
def visit_property_access (pa : PropertyAccess) (offset : Nat) :
    Option SymbolAtOffset :=
  oor (visit_identifier pa.object offset) (visit_id_list pa.path offset)

/-- Mirrors `visit_type`: `Custom` visits the identifier, `List` recurses,
every other variant yields nothing. -/
def visit_type : TypeRecord → Nat → Option SymbolAtOffset
  | .mk t _, offset =>
    match t with
    | .custom id => visit_identifier id offset
    | .listTy inner => visit_type inner offset
    | _ => none

mutual
/-- Mirrors `visit_data_expr`. -/
def visit_data_expr : DataExpr → Nat → Option SymbolAtOffset
  | .identifier id, offset => visit_identifier id offset
  | .structConstructor sc, offset => visit_struct_constructor sc offset
  | .listConstructor els, offset => visit_data_expr_list els offset
  | .propertyAccess pa, offset => visit_property_access pa offset
  | .binaryOp l r, offset =>
    oor (visit_data_expr l offset) (visit_data_expr r offset)
  | .otherData, _ => none

/-- Element loop of `visit_data_expr`'s `ListConstructor` arm. -/
def visit_data_expr_list : DataExprList → Nat → Option SymbolAtOffset
  | .nil, _ => none
  | .cons e rest, offset =>
    oor (visit_data_expr e offset) (visit_data_expr_list rest offset)

/-- Mirrors `visit_struct_constructor`: type identifier, then the case. -/
def visit_struct_constructor : StructConstructor → Nat → Option SymbolAtOffset
  | .mk ty case, offset =>
    oor (visit_identifier ty offset) (visit_variant_case_constructor case offset)

/-- Mirrors `visit_variant_case_constructor`: name, fields, then spread. -/
def visit_variant_case_constructor :
    VariantCaseConstructor → Nat → Option SymbolAtOffset
  | .mk name fields spread, offset =>
    oor (visit_identifier name offset)
      (oor (visit_rcf_list fields offset)
        (match spread with
          | .some e => visit_data_expr e offset
          | .none => none))

/-- Field loop of `visit_variant_case_constructor`. -/
def visit_rcf_list : RcfList → Nat → Option SymbolAtOffset
  | .nil, _ => none
  | .cons f rest, offset =>
    oor (visit_record_constructor_field f offset) (visit_rcf_list rest offset)

/-- Mirrors `visit_record_constructor_field`: field name, then value. -/
def visit_record_constructor_field :
    RecordConstructorField → Nat → Option SymbolAtOffset
  | .mk name value, offset =>
    oor (visit_identifier name offset) (visit_data_expr value offset)
end

/-- Mirrors `visit_asset_expr`. -/
def visit_asset_expr : AssetExpr → Nat → Option SymbolAtOffset
  | .identifier id, offset => visit_identifier id offset
  | .staticConstructor ty amount, offset =>
    oor (visit_identifier ty offset) (visit_data_expr amount offset)
  | .anyConstructor policy assetName amount, offset =>
    oor (visit_data_expr policy offset)
      (oor (visit_data_expr assetName offset) (visit_data_expr amount offset))
  | .binaryOp l r, offset =>
    oor (visit_asset_expr l offset) (visit_asset_expr r offset)
  | .propertyAccess pa, offset => visit_property_access pa offset

/-- Mirrors `visit_address_expr`: only the `Identifier` variant can match. -/
def visit_address_expr : AddressExpr → Nat → Option SymbolAtOffset
  | .identifier id, offset => visit_identifier id offset
  | .otherAddress, _ => none

/-- Mirrors `visit_input_block_field`. -/
def visit_input_block_field : InputBlockField → Nat → Option SymbolAtOffset
  | .from_ addr, offset => visit_address_expr addr offset
  | .datumIs ty, offset => visit_type ty offset
  | .minAmount expr, offset => visit_asset_expr expr offset
  | .redeemer expr, offset => visit_data_expr expr offset
  | .ref expr, offset => visit_data_expr expr offset

/-- Mirrors `visit_input_block`: first matching field wins. -/
def visit_input_block (input : InputBlock) (offset : Nat) :
    Option SymbolAtOffset :=
  firstSome (fun f => visit_input_block_field f offset) input.fields

/-- Mirrors `visit_output_block_field`. -/
def visit_output_block_field : OutputBlockField → Nat → Option SymbolAtOffset
  | .to_ addr, offset => visit_address_expr addr offset
  | .amount expr, offset => visit_asset_expr expr offset
  | .datum expr, offset => visit_data_expr expr offset

/-- Mirrors `visit_output_block`. -/
def visit_output_block (output : OutputBlock) (offset : Nat) :
    Option SymbolAtOffset :=
  firstSome (fun f => visit_output_block_field f offset) output.fields

/-- Field dispatch of `visit_mint_block` / `visit_burn_block`. -/
def visit_mint_block_field : MintBlockField → Nat → Option SymbolAtOffset
  | .amount expr, offset => visit_asset_expr expr offset
  | .redeemer expr, offset => visit_data_expr expr offset

/-- Mirrors `visit_mint_block`. -/
def visit_mint_block (mb : MintBlock) (offset : Nat) : Option SymbolAtOffset :=
  firstSome (fun f => visit_mint_block_field f offset) mb.fields

/-- Mirrors `visit_burn_block` (same field handling as mint blocks). -/
def visit_burn_block (bb : BurnBlock) (offset : Nat) : Option SymbolAtOffset :=
  firstSome (fun f => visit_mint_block_field f offset) bb.fields

/-- Mirrors `visit_reference_block`: visits the `r#ref` expression. -/
def visit_reference_block (rb : ReferenceBlock) (offset : Nat) :
    Option SymbolAtOffset :=
  visit_data_expr rb.ref offset

/-- Mirrors `visit_chain_specific_block`: never matches. -/
def visit_chain_specific_block (_cb : ChainSpecificBlock) (_offset : Nat) :
    Option SymbolAtOffset :=
  none

/-- Field dispatch of `visit_collateral_block`'s loop. -/
def visit_collateral_block_field :
    CollateralBlockField → Nat → Option SymbolAtOffset
  | .from_ addr, offset => visit_address_expr addr offset
  | .minAmount expr, offset => visit_asset_expr expr offset
  | .ref expr, offset => visit_data_expr expr offset

/-- Mirrors `visit_collateral_block`. -/
def visit_collateral_block (cb : CollateralBlock) (offset : Nat) :
    Option SymbolAtOffset :=
  firstSome (fun f => visit_collateral_block_field f offset) cb.fields

/-- Mirrors `visit_signers_block`. -/
def visit_signers_block (sb : SignersBlock) (offset : Nat) :
    Option SymbolAtOffset :=
  firstSome (fun e => visit_data_expr e offset) sb.signers

/-- Field dispatch of `visit_validity_block`'s loop (both variants visit the
carried expression). -/
def visit_validity_block_field :
    ValidityBlockField → Nat → Option SymbolAtOffset
  | .sinceSlot expr, offset => visit_data_expr expr offset
  | .untilSlot expr, offset => visit_data_expr expr offset

/-- Mirrors `visit_validity_block`. -/
def visit_validity_block (vb : ValidityBlock) (offset : Nat) :
    Option SymbolAtOffset :=
  firstSome (fun f => visit_validity_block_field f offset) vb.fields

/-- Mirrors `visit_metadata_block`: never matches. -/
def visit_metadata_block (_mb : MetadataBlock) (_offset : Nat) :
    Option SymbolAtOffset :=
  none

/-- Mirrors `visit_parameter_list`: per parameter, the name's own span, then
the parameter's type. -/
def visit_parameter_list (params : ParameterList) (offset : Nat) :
    Option SymbolAtOffset :=
  firstSome
    (fun param =>
      oor (if in_span param.name.span offset
            then some (.identifier param.name) else none)
        (visit_type param.ty offset))
    params.parameters

/-- Mirrors `visit_tx_def`: name, parameters, inputs, outputs, mints,
references, ad-hoc blocks, collateral, signers, validity, burn, metadata. -/
def visit_tx_def (tx : TxDef) (offset : Nat) : Option SymbolAtOffset :=
  oor (if in_span tx.name.span offset then some (.identifier tx.name) else none)
    (oor (visit_parameter_list tx.parameters offset)
      (oor (firstSome (fun i => visit_input_block i offset) tx.inputs)
        (oor (firstSome (fun o => visit_output_block o offset) tx.outputs)
          (oor (firstSome (fun m => visit_mint_block m offset) tx.mints)
            (oor (firstSome (fun r => visit_reference_block r offset) tx.references)
              (oor (firstSome (fun c => visit_chain_specific_block c offset) tx.adhoc)
                (oor (firstSome (fun c => visit_collateral_block c offset) tx.collateral)
                  (oor (match tx.signers with
                         | some s => visit_signers_block s offset
                         | none => none)
                    (oor (match tx.validity with
                           | some v => visit_validity_block v offset
                           | none => none)
                      (oor (match tx.burn with
                             | some b => visit_burn_block b offset
                             | none => none)
                        (match tx.metadata with
                          | some m => visit_metadata_block m offset
                          | none => none)))))))))))

/-- Mirrors `visit_asset_def`: policy expression, then asset-name
expression. -/
def visit_asset_def (asset : AssetDef) (offset : Nat) : Option SymbolAtOffset :=
  oor (visit_data_expr asset.policy offset)
    (visit_data_expr asset.assetName offset)

/-- Mirrors `visit_record_field`: field name's span, then its type. -/
def visit_record_field (field : RecordField) (offset : Nat) :
    Option SymbolAtOffset :=
  oor (if in_span field.name.span offset
        then some (.identifier field.name) else none)
    (visit_type field.ty offset)

/-- Mirrors `visit_variant_case`: scans the case's record fields. -/
def visit_variant_case (case : VariantCase) (offset : Nat) :
    Option SymbolAtOffset :=
  firstSome (fun field => visit_record_field field offset) case.fields

/-- Per-case body of `visit_type_def`'s loop: the record-field type spans,
then `visit_variant_case`. -/
def visit_type_def_case (case : VariantCase) (offset : Nat) :
    Option SymbolAtOffset :=
  oor (firstSome
        (fun field =>
          if in_span field.ty.span offset
            then some (.typeIdentifier field.ty) else none)
        case.fields)
    (visit_variant_case case offset)

/-- Mirrors `visit_type_def`: type name's span, then each variant case. -/
def visit_type_def (ty : TypeDef) (offset : Nat) : Option SymbolAtOffset :=
  oor (if in_span ty.name.span offset then some (.identifier ty.name) else none)
    (firstSome (fun case => visit_type_def_case case offset) ty.cases)

/-- Mirrors `visit_party_def`: returns the party's name identifier whenever
the offset lies anywhere in the party declaration's span. -/
def visit_party_def (party : PartyDef) (offset : Nat) : Option SymbolAtOffset :=
  if in_span party.span offset then some (.identifier party.name) else none

/-- Mirrors `visit_policy_field`. -/
def visit_policy_field : PolicyField → Nat → Option SymbolAtOffset
  | .hash expr, offset => visit_data_expr expr offset
  | .script expr, offset => visit_data_expr expr offset
  | .ref expr, offset => visit_data_expr expr offset

/-- Mirrors `visit_policy_def`: constructor policies visit their fields;
assignment policies return the policy's name identifier whenever the offset
lies anywhere in the policy declaration's span. -/
def visit_policy_def (policy : PolicyDef) (offset : Nat) :
    Option SymbolAtOffset :=
  match policy.value with
  | .constructor c => firstSome (fun f => visit_policy_field f offset) c.fields
  | .assign _ =>
    if in_span policy.span offset then some (.identifier policy.name) else none

/-- Mirrors `find_symbol_in_program`: transactions, then assets, then types,
then parties, then policies; first match wins. -/
def find_symbol_in_program (program : Program) (offset : Nat) :
    Option SymbolAtOffset :=
  oor (firstSome (fun tx => visit_tx_def tx offset) program.txs)
    (oor (firstSome (fun a => visit_asset_def a offset) program.assets)
      (oor (firstSome (fun t => visit_type_def t offset) program.types)
        (oor (firstSome (fun p => visit_party_def p offset) program.parties)
          (firstSome (fun p => visit_policy_def p offset) program.policies))))

/-! ### Hover, definition, semantic tokens, diagnostics -/

/-- Shorthand turning a Lean string literal into the `List Char` text
representation used throughout this development. -/
def str (s : String) : List Char :=
  s.toList

/-- Document identity (LSP `Url`), abstracted to a string. -/
abbrev Url := List Char

/-- LSP `Location`: a document plus a range inside it. -/
structure Location where
  uri : Url
  range : Range
deriving DecidableEq

mutual
/-- Modelled from the spec: the `{:?}` (derived `Debug`) rendering of a
parameter type from the external `tx3_lang` crate, which is not part of this
repository.  The spec's hover scenario (`tx Swap(amt: Int)` yielding the
line ``- `amt`: `Int` ``) fixes unit variants to render as their bare
variant name; compound variants render in a derived-Debug style whose exact
shape no claim depends on. -/
def typeTyDebug : TypeTy → List Char
  | .int => str "Int"
  | .bool => str "Bool"
  | .bytes => str "Bytes"
  | .custom id => str "Custom(" ++ id.value ++ str ")"
  | .listTy inner => str "List(" ++ typeDebug inner ++ str ")"
  | .otherTy => str "Other"

/-- Modelled from the spec: the `{:?}` rendering of a `TypeRecord`; the
spec's hover scenario shows it rendering as the bare type (`Int`), not as a
record with its span. -/
def typeDebug : TypeRecord → List Char
  | .mk t _ => typeTyDebug t
end

/-- Hover payload: the markdown string and the range it covers (the source
always wraps the string as markdown `MarkupContent`, so the kind carries no
information and is omitted). -/
structure HoverResult where
  value : List Char
  range : Range
deriving DecidableEq

/-- Hover text of a party declaration (`server.rs` hover). -/
def partyHoverText (party : PartyDef) : List Char :=
  str "**Party**: `" ++ party.name.value ++
    str "`\n\nA party in the transaction. It can be an address for a script or a wallet."

/-- Hover text of a policy declaration. -/
def policyHoverText (policy : PolicyDef) : List Char :=
  str "**Policy**: `" ++ policy.name.value ++ str "`\n\nA policy definition."

/-- Hover text of a type declaration. -/
def typeHoverText (ty : TypeDef) : List Char :=
  str "**Type**: `" ++ ty.name.value ++ str "`\n\nA type definition."

/-- Hover text of an asset declaration. -/
def assetHoverText (asset : AssetDef) : List Char :=
  str "**Asset**: `" ++ asset.name ++ str "`\n\nAn asset definition."

/-- Hover text of an input block. -/
def inputHoverText (input : InputBlock) : List Char :=
  str "**Input**: `" ++ input.name ++ str "`\n\nTransaction input."

/-- Hover text of an output block (unnamed outputs display as `output`). -/
def outputHoverText (output : OutputBlock) : List Char :=
  str "**Output**: `" ++ output.name.getD (str "output") ++
    str "`\n\nTransaction output."

/-- Hover text of a transaction parameter. -/
def paramHoverText (param : ParameterDef) : List Char :=
  str "**Parameter**: `" ++ param.name.value ++ str "`\n\n**Type**: `" ++
    typeDebug param.ty ++ str "`"

/-- One bulleted parameter line of the transaction hover template. -/
def paramLine (param : ParameterDef) : List Char :=
  str "- `" ++ param.name.value ++ str "`: `" ++ typeDebug param.ty ++ str "`\n"

/-- One bulleted input line of the transaction hover template. -/
def inputLine (input : InputBlock) : List Char :=
  str "- `" ++ input.name ++ str "`\n"

/-- One bulleted output line of the transaction hover template. -/
def outputLine (output : OutputBlock) : List Char :=
  str "- `" ++ output.name.getD (str "output") ++ str "`\n"

/-- Transaction hover template of `server.rs`: name, then the parameter,
input and output sections, each emitted only when its list is non-empty. -/
def txHoverText (tx : TxDef) : List Char :=
  str "**Transaction**: `" ++ tx.name.value ++ str "`\n\n" ++
    (if tx.parameters.parameters.isEmpty then []
      else str "**Parameters**:\n" ++
        (tx.parameters.parameters.map paramLine).flatten ++ str "\n") ++
    (if tx.inputs.isEmpty then []
      else str "**Inputs**:\n" ++ (tx.inputs.map inputLine).flatten ++ str "\n") ++
    (if tx.outputs.isEmpty then []
      else str "**Outputs**:\n" ++ (tx.outputs.map outputLine).flatten)

/-- Per-transaction part of the hover cascade: inputs, outputs, the
parameter-list span (whose hover shows the first parameter), then the
transaction's own span. -/
def hoverTx (t : List Char) (offset : Nat) (tx : TxDef) : Option HoverResult :=
  oor (firstSome
        (fun input =>
          if span_contains input.span offset
            then some ⟨inputHoverText input, span_to_lsp_range t input.span⟩
            else none)
        tx.inputs)
    (oor (firstSome
          (fun output =>
            if span_contains output.span offset
              then some ⟨outputHoverText output, span_to_lsp_range t output.span⟩
              else none)
          tx.outputs)
      (oor (if span_contains tx.parameters.span offset then
              match tx.parameters.parameters with
              | [] => none
              | param :: _ =>
                some ⟨paramHoverText param, span_to_lsp_range t tx.parameters.span⟩
            else none)
        (if span_contains tx.span offset
          then some ⟨txHoverText tx, span_to_lsp_range t tx.span⟩
          else none)))

/-- Pure core of the `hover` handler in `src/server.rs`: the cascade over
parties, policies, types, assets and transactions by span containment. -/
def hover_logic (ast : Program) (t : List Char) (offset : Nat) :
    Option HoverResult :=
  oor (firstSome
        (fun party =>
          if span_contains party.span offset
            then some ⟨partyHoverText party, span_to_lsp_range t party.span⟩
            else none)
        ast.parties)
    (oor (firstSome
          (fun policy =>
            if span_contains policy.span offset
              then some ⟨policyHoverText policy, span_to_lsp_range t policy.span⟩
              else none)
          ast.policies)
      (oor (firstSome
            (fun ty =>
              if span_contains ty.span offset
                then some ⟨typeHoverText ty, span_to_lsp_range t ty.span⟩
                else none)
            ast.types)
        (oor (firstSome
              (fun asset =>
                if span_contains asset.span offset
                  then some ⟨assetHoverText asset, span_to_lsp_range t asset.span⟩
                  else none)
              ast.assets)
          (firstSome (hoverTx t offset) ast.txs))))

/-- Pure core of the `goto_definition` handler in `src/server.rs`: resolve
the offset through the visitor, then re-search the declaration tables for a
matching name.  The source matches only the `Identifier` variant of
`SymbolAtOffset` (its `match` has a single arm); the `typeIdentifier` case
is rendered as no result. -/
def goto_definition_logic (ast : Program) (t : List Char) (uri : Url)
    (offset : Nat) : Option Location :=
  match find_symbol_in_program ast offset with
  | some (.identifier id) =>
    oor (firstSome
          (fun party =>
            if party.name.value = id.value
              then some ⟨uri, span_to_lsp_range t party.span⟩ else none)
          ast.parties)
      (oor (firstSome
            (fun policy =>
              if policy.name.value = id.value
                then some ⟨uri, span_to_lsp_range t policy.span⟩ else none)
            ast.policies)
        (firstSome
          (fun tx =>
            if span_contains tx.span offset then
              oor (firstSome
                    (fun param =>
                      if param.name.value = id.value
                        then some ⟨uri, span_to_lsp_range t tx.parameters.span⟩
                        else none)
                    tx.parameters.parameters)
                (oor (firstSome
                      (fun input =>
                        if input.name = id.value
                          then some ⟨uri, span_to_lsp_range t input.span⟩
                          else none)
                      tx.inputs)
                  (oor (firstSome
                        (fun output =>
                          match output.name with
                          | some outputName =>
                            if outputName = id.value
                              then some ⟨uri, span_to_lsp_range t output.span⟩
                              else none
                          | none => none)
                        tx.outputs)
                    (firstSome
                      (fun reference =>
                        if reference.name = id.value
                          then some ⟨uri, span_to_lsp_range t reference.span⟩
                          else none)
                      tx.references)))
            else none)
          ast.txs))
  | some (.typeIdentifier _) => none
  | none => none

/-! ### Semantic tokens (`Context::collect_semantic_tokens` in `src/lib.rs`) -/

/-- Token type index `TOKEN_KEYWORD` of the legend in `src/lib.rs`. -/
def TOKEN_KEYWORD : Nat := 0
/-- Token type index `TOKEN_TYPE`. -/
def TOKEN_TYPE : Nat := 1
/-- Token type index `TOKEN_PARAMETER`. -/
def TOKEN_PARAMETER : Nat := 2
/-- Token type index `TOKEN_VARIABLE`. -/
def TOKEN_VARIABLE : Nat := 3
/-- Token type index `TOKEN_FUNCTION`. -/
def TOKEN_FUNCTION : Nat := 4
/-- Token type index `TOKEN_CLASS`. -/
def TOKEN_CLASS : Nat := 5
/-- Token type index `TOKEN_PROPERTY`. -/
def TOKEN_PROPERTY : Nat := 6
/-- Token type index `TOKEN_PARTY`. -/
def TOKEN_PARTY : Nat := 7
/-- Token type index `TOKEN_POLICY`. -/
def TOKEN_POLICY : Nat := 8
/-- Token type index `TOKEN_TRANSACTION`. -/
def TOKEN_TRANSACTION : Nat := 9
/-- Token type index `TOKEN_INPUT`. -/
def TOKEN_INPUT : Nat := 10
/-- Token type index `TOKEN_OUTPUT`. -/
def TOKEN_OUTPUT : Nat := 11
/-- Token type index `TOKEN_REFERENCE`. -/
def TOKEN_REFERENCE : Nat := 12
/-- Token modifier bit `MOD_DECLARATION`. -/
def MOD_DECLARATION : Nat := 1
/-- Token modifier bit `MOD_DEFINITION`. -/
def MOD_DEFINITION : Nat := 2

/-- Mirrors the local `TokenInfo` struct of `collect_semantic_tokens`. -/
structure TokenInfo where
  range : Range
  token_type : Nat
  token_modifiers : Nat
deriving DecidableEq

/-- Wire-format LSP semantic token, mirroring `SemanticToken` (delta-encoded
line and start, with length, type index and modifier bitset). -/
structure SemanticToken where
  delta_line : Nat
  delta_start : Nat
  length : Nat
  token_type : Nat
  token_modifiers_bitset : Nat
deriving DecidableEq

/-- Tests whether `pat` occurs at the head of `hay` (Rust
`str::starts_with`). -/
def leadsWith : List Char → List Char → Bool
  | [], _ => true
  | _ :: _, [] => false
  | p :: ps, c :: cs => p = c && leadsWith ps cs

/-- Model of Rust `str::find`: index of the first occurrence of `pat` in
`hay` (char-counted; the source's byte indices agree on the ASCII texts the
concrete scenarios use). -/
def strFind : List Char → List Char → Option Nat
  | [], pat => if pat.isEmpty then some 0 else none
  | c :: cs, pat =>
    if leadsWith pat (c :: cs) then some 0
    else (strFind cs pat).map (· + 1)

/-- Model of `rope.slice(start..end)` as a char sublist. -/
def ropeSlice (t : List Char) (start stop : Nat) : List Char :=
  (t.take stop).drop start

/-- Mirrors the `extract_identifier_after_keyword` closure of
`collect_semantic_tokens`: find the keyword in the declaration's span, then
the identifier after it; if that fails, find the identifier anywhere in the
span. -/
def extract_identifier_after_keyword (t : List Char) (span : Span)
    (keyword identifier : List Char) : Option Range :=
  let startChar := span.start
  let endChar := span.stop
  if endChar ≤ startChar then none
  else
    let text := ropeSlice t startChar endChar
    let fallback :=
      match strFind text identifier with
      | some idPos =>
        some (span_to_lsp_range t
          (Span.new (startChar + idPos) (startChar + idPos + identifier.length)))
      | none => none
    match strFind text keyword with
    | some keywordPos =>
      match strFind (text.drop (keywordPos + keyword.length)) identifier with
      | some idPos =>
        some (span_to_lsp_range t
          (Span.new (startChar + keywordPos + keyword.length + idPos)
            (startChar + keywordPos + keyword.length + idPos + identifier.length)))
      | none => fallback
    | none => fallback

/-- The `token_infos` list built by `collect_semantic_tokens`'s five
declaration loops (parties, policies, types, assets, transactions), in
order. -/
def structuralTokenInfos (ast : Program) (t : List Char) : List TokenInfo :=
  ast.parties.filterMap
      (fun party =>
        (extract_identifier_after_keyword t party.span (str "party")
            party.name.value).map
          (fun range => ⟨range, TOKEN_PARTY, MOD_DECLARATION⟩)) ++
    ast.policies.filterMap
      (fun policy =>
        (extract_identifier_after_keyword t policy.span (str "policy")
            policy.name.value).map
          (fun range => ⟨range, TOKEN_POLICY, MOD_DECLARATION⟩)) ++
    ast.types.filterMap
      (fun typeDef =>
        (extract_identifier_after_keyword t typeDef.span (str "type")
            typeDef.name.value).map
          (fun range => ⟨range, TOKEN_TYPE, MOD_DECLARATION⟩)) ++
    ast.assets.filterMap
      (fun asset =>
        (extract_identifier_after_keyword t asset.span (str "asset")
            asset.name).map
          (fun range => ⟨range, TOKEN_CLASS, MOD_DECLARATION⟩)) ++
    ast.txs.filterMap
      (fun tx =>
        (extract_identifier_after_keyword t tx.span (str "tx")
            tx.name.value).map
          (fun range => ⟨range, TOKEN_TRANSACTION, MOD_DECLARATION⟩))

/-- Boolean rendering of the sort comparator of `collect_semantic_tokens`:
`(line, character)` lexicographic order on token start positions. -/
def posLeB (a b : Position) : Bool :=
  a.line < b.line || (a.line = b.line && a.character ≤ b.character)

/-- Insertion step of the stable sort: place `x` before the first element it
compares less-or-equal to, preserving the original order of ties exactly as
Rust's stable `sort_by` does. -/
def insertToken (x : TokenInfo) : List TokenInfo → List TokenInfo
  | [] => [x]
  | y :: ys =>
    if posLeB x.range.start y.range.start then x :: y :: ys
    else y :: insertToken x ys

/-- Stable sort by token start position, matching the `sort_by` call of
`collect_semantic_tokens` (a stable sort by a total comparator has a unique
result, so insertion sort reproduces it). -/
def sortTokens : List TokenInfo → List TokenInfo
  | [] => []
  | x :: xs => insertToken x (sortTokens xs)

/-- The duplicate test of the `dedup_by` call: equal start and end
positions. -/
def sameRange (a b : TokenInfo) : Bool :=
  decide (a.range.start = b.range.start) && decide (a.range.stop = b.range.stop)

/-- Tail of `dedup_by`: drop every element equal (by `sameRange`) to the
last kept element. -/
def dedupAdjAux (prev : TokenInfo) : List TokenInfo → List TokenInfo
  | [] => []
  | y :: ys =>
    if sameRange y prev then dedupAdjAux prev ys else y :: dedupAdjAux y ys

/-- Mirrors `Vec::dedup_by` with the `sameRange` test: keeps the first
element of every run of duplicates. -/
def dedupAdj : List TokenInfo → List TokenInfo
  | [] => []
  | x :: xs => x :: dedupAdjAux x xs

/-- Delta-encoding loop of `collect_semantic_tokens`: drops zero-length
tokens (without updating the previous position) and otherwise emits
`delta_line = line - prev_line` (saturating) and `delta_start` relative to
the previous start when the line delta is zero. -/
def encodeTokensAux (prevLine prevStart : Nat) :
    List TokenInfo → List SemanticToken
  | [] => []
  | ti :: rest =>
    let line := ti.range.start.line
    let start := ti.range.start.character
    let length := ti.range.stop.character - start
    if length = 0 then encodeTokensAux prevLine prevStart rest
    else
      let deltaLine := line - prevLine
      let deltaStart := if deltaLine = 0 then start - prevStart else start
      ⟨deltaLine, deltaStart, length, ti.token_type, ti.token_modifiers⟩ ::
        encodeTokensAux line start rest

/-- Sort + dedup + delta-encode pipeline shared by the token emitters. -/
def encodeTokenInfos (infos : List TokenInfo) : List SemanticToken :=
  encodeTokensAux 0 0 (dedupAdj (sortTokens infos))

/-- Mirrors `Context::collect_semantic_tokens` in `src/lib.rs`: the
structural declaration walk followed by sorting, duplicate removal and
delta encoding. -/
def collect_semantic_tokens (ast : Program) (t : List Char) :
    List SemanticToken :=
  encodeTokenInfos (structuralTokenInfos ast t)

/-! ### Spec-side reference: linear-sweep semantic tokens (spec 4.3, 4.4) -/

/-- Modelled from the spec: the Symbol Classifier of spec section 4.3, which
exists in the specification but has no counterpart function in `src/`.
Membership is checked against party, policy, type, asset and transaction
names in that order; then, inside transactions whose span contains the
offset, against parameter, input, output and reference names; the fallback
is the Variable category.  Categories are rendered as the token-type indices
of `src/lib.rs`. -/
def classifySpec (program : Program) (id : Identifier) (offset : Nat) : Nat :=
  if program.parties.any (fun p => p.name.value = id.value) then TOKEN_PARTY
  else if program.policies.any (fun p => p.name.value = id.value) then TOKEN_POLICY
  else if program.types.any (fun t => t.name.value = id.value) then TOKEN_TYPE
  else if program.assets.any (fun a => a.name = id.value) then TOKEN_CLASS
  else if program.txs.any (fun tx => tx.name.value = id.value) then TOKEN_TRANSACTION
  else
    ((firstSome
        (fun tx =>
          if span_contains tx.span offset then
            if tx.parameters.parameters.any (fun p => p.name.value = id.value)
              then some TOKEN_PARAMETER
            else if tx.inputs.any (fun i => i.name = id.value) then some TOKEN_INPUT
            else if tx.outputs.any (fun o => o.name = some id.value) then some TOKEN_OUTPUT
            else if tx.references.any (fun r => r.name = id.value) then some TOKEN_REFERENCE
            else none
          else none)
        program.txs).getD TOKEN_VARIABLE)

/-- Modelled from the spec: the reference linear sweep of spec section 4.4 —
at every character offset of the document, in ascending order, invoke the
Locator (`find_symbol_in_program`), classify hits, and suppress duplicate
spans through a seen-span set so each identifier yields exactly one token. -/
def sweepTokenInfosAux (program : Program) (t : List Char) :
    Nat → Nat → List Span → List TokenInfo
  | _, 0, _ => []
  | offset, fuel + 1, seen =>
    match find_symbol_in_program program offset with
    | some (.identifier id) =>
      if id.span ∈ seen then sweepTokenInfosAux program t (offset + 1) fuel seen
      else
        ⟨span_to_lsp_range t id.span, classifySpec program id offset, 0⟩ ::
          sweepTokenInfosAux program t (offset + 1) fuel (id.span :: seen)
    | some (.typeIdentifier tr) =>
      if tr.span ∈ seen then sweepTokenInfosAux program t (offset + 1) fuel seen
      else
        ⟨span_to_lsp_range t tr.span, TOKEN_TYPE, 0⟩ ::
          sweepTokenInfosAux program t (offset + 1) fuel (tr.span :: seen)
    | none => sweepTokenInfosAux program t (offset + 1) fuel seen

/-- Modelled from the spec: the complete reference semantic-token behavior of
spec section 4.4 — the linear sweep over every character offset, followed by
the same sorting, duplicate removal and delta encoding as the emitter. -/
def sweep_semantic_tokens (program : Program) (t : List Char) :
    List SemanticToken :=
  encodeTokenInfos (sweepTokenInfosAux program t 0 t.length [])

/-! ### Diagnostics (`src/lib.rs`) -/

/-- LSP diagnostic severity (only `ERROR` is produced by this core). -/
inductive DiagnosticSeverity where
  | error : DiagnosticSeverity
  | warning : DiagnosticSeverity
  | information : DiagnosticSeverity
  | hint : DiagnosticSeverity
deriving DecidableEq

/-- LSP `Diagnostic` as populated by `src/lib.rs` (the remaining wire fields
are left at their defaults by the source and omitted here). -/
structure Diagnostic where
  range : Range
  severity : Option DiagnosticSeverity
  source : Option (List Char)
  message : List Char
deriving DecidableEq

/-- Mirrors `tx3_lang::parsing::Error` at the interface the repository
consumes: a span, a message and a source label. -/
structure ParseError where
  span : Span
  message : List Char
  src : List Char
deriving DecidableEq

/-- Mirrors `tx3_lang::analyzing::Error` at the interface the repository
consumes: a span accessor, a display form (`to_string`) and an optional
source label accessor (`src()`). -/
structure AnalyzeError where
  span : Span
  display : List Char
  src : Option (List Char)
deriving DecidableEq

/-- Mirrors `tx3_lang::analyzing::AnalyzeReport`: a list of errors. -/
structure AnalyzeReport where
  errors : List AnalyzeError

/-- Mirrors `parse_error_to_diagnostic` in `src/lib.rs`. -/
def parse_error_to_diagnostic (t : List Char) (err : ParseError) : Diagnostic :=
  { range := span_to_lsp_range t err.span
    severity := some .error
    source := some err.src
    message := err.message }

/-- Mirrors `analyze_error_to_diagnostic` in `src/lib.rs`: the source label
defaults to `"tx3"` when the error carries none. -/
def analyze_error_to_diagnostic (t : List Char) (err : AnalyzeError) :
    Diagnostic :=
  { range := span_to_lsp_range t err.span
    severity := some .error
    source := some (err.src.getD (str "tx3"))
    message := err.display }

/-- Mirrors `analyze_report_to_diagnostic` in `src/lib.rs`: one diagnostic
per analyzer error, in order. -/
def analyze_report_to_diagnostic (t : List Char) (report : AnalyzeReport) :
    List Diagnostic :=
  report.errors.map (fun err => analyze_error_to_diagnostic t err)

/-! ### Server handlers (`src/server.rs`) -/

/-- LSP `SymbolKind` values used by `document_symbol`. -/
inductive SymbolKind where
  | object : SymbolKind
  | key : SymbolKind
  | field : SymbolKind
  | method : SymbolKind
deriving DecidableEq

/-- LSP `DocumentSymbol` as populated by `make_symbol` in `document_symbol`
(`tags`/`deprecated` are left at their defaults by the source and omitted). -/
inductive DocumentSymbol where
  | mk (name : List Char) (detail : Option (List Char)) (kind : SymbolKind)
      (range : Range) (selectionRange : Range)
      (children : Option (List DocumentSymbol)) : DocumentSymbol

/-- Mirrors the `make_symbol` helper of `document_symbol`: the detail is
always present and the selection range equals the range. -/
def make_symbol (name detail : List Char) (kind : SymbolKind) (range : Range)
    (children : Option (List DocumentSymbol)) : DocumentSymbol :=
  .mk name (some detail) kind range range children

/-- Symbol list built by `document_symbol` for a parsed program: parties,
policies, then transactions with their parameters, inputs and outputs as
children. -/
def documentSymbols (ast : Program) (t : List Char) : List DocumentSymbol :=
  ast.parties.map
      (fun party =>
        make_symbol party.name.value (str "Party") .object
          (span_to_lsp_range t party.span) none) ++
    ast.policies.map
      (fun policy =>
        make_symbol policy.name.value (str "Policy") .key
          (span_to_lsp_range t policy.span) none) ++
    ast.txs.map
      (fun tx =>
        make_symbol tx.name.value (str "Tx") .method
          (span_to_lsp_range t tx.span)
          (some
            (tx.parameters.parameters.map
                (fun parameter =>
                  make_symbol parameter.name.value
                    (str "Parameter<" ++ typeDebug parameter.ty ++ str ">")
                    .field (span_to_lsp_range t tx.parameters.span) none) ++
              tx.inputs.map
                (fun input =>
                  make_symbol input.name (str "Input") .object
                    (span_to_lsp_range t input.span) none) ++
              tx.outputs.map
                (fun output =>
                  make_symbol (output.name.getD (str "output")) (str "Output")
                    .object (span_to_lsp_range t output.span) none))))

/-- JSON-RPC-level error, as a handler could in principle return
(`tower_lsp::jsonrpc::Error`); the handlers under verification always
answer successfully, which the theorems make explicit. -/
inductive LspErr where
  | err : LspErr
deriving DecidableEq

/-- The document store of `Context` (`DashMap<Url, Rope>`), modelled as a
lookup function from URIs to current text snapshots. -/
structure ServerState where
  documents : Url → Option (List Char)

/-- The external parser collaborator:
`tx3_lang::parsing::parse_string(text) -> Program | ParseError`. -/
abbrev ParseFn := List Char → Except ParseError Program

/-- The external analyzer collaborator:
`tx3_lang::analyzing::analyze(program) -> AnalyzeReport`. -/
abbrev AnalyzeFn := Program → AnalyzeReport

/-- Mirrors the `semantic_tokens_full` handler: missing document or failed
parse yield a successful response with no result. -/
def semantic_tokens_full (st : ServerState) (parse : ParseFn) (uri : Url) :
    Except LspErr (Option (List SemanticToken)) :=
  match st.documents uri with
  | some t =>
    match parse t with
    | .ok ast => .ok (some (collect_semantic_tokens ast t))
    | .error _ => .ok none
  | none => .ok none

/-- Mirrors the `goto_definition` handler. -/
def goto_definition (st : ServerState) (parse : ParseFn) (uri : Url)
    (position : Position) : Except LspErr (Option Location) :=
  match st.documents uri with
  | some t =>
    match parse t with
    | .ok ast => .ok (goto_definition_logic ast t uri (position_to_offset t position))
    | .error _ => .ok none
  | none => .ok none

/-- Mirrors the `hover` handler. -/
def hover (st : ServerState) (parse : ParseFn) (uri : Url)
    (position : Position) : Except LspErr (Option HoverResult) :=
  match st.documents uri with
  | some t =>
    match parse t with
    | .ok ast => .ok (hover_logic ast t (position_to_offset t position))
    | .error _ => .ok none
  | none => .ok none

/-- Mirrors the `document_symbol` handler: always answers successfully with
a (possibly empty) nested symbol list. -/
def document_symbol (st : ServerState) (parse : ParseFn) (uri : Url) :
    Except LspErr (Option (List DocumentSymbol)) :=
  .ok (some
    (match st.documents uri with
      | some t =>
        match parse t with
        | .ok ast => documentSymbols ast t
        | .error _ => []
      | none => []))

/-- Mirrors the `did_close` handler: removes the document from the store. -/
def did_close (st : ServerState) (uri : Url) : ServerState :=
  ⟨fun u => if u = uri then none else st.documents u⟩

/-- Mirrors `Context::process_document`: store the new text, then produce
diagnostics from the parse error or from the analyzer report. -/
def process_document (st : ServerState) (parse : ParseFn)
    (analyze : AnalyzeFn) (uri : Url) (text : List Char) :
    ServerState × List Diagnostic :=
  (⟨fun u => if u = uri then some text else st.documents u⟩,
    match parse text with
    | .ok ast => analyze_report_to_diagnostic text (analyze ast)
    | .error e => [parse_error_to_diagnostic text e])

/-! ### Concrete scenarios -/

/-- Source text of the spec's definition scenario:
`party Buyer;` plus `tx Pay() { input src { from: Buyer } }` on one line. -/
def buyerText : List Char :=
  str "party Buyer; tx Pay() { input src { from: Buyer } }"

/-- The `Buyer` occurrence inside the input block of `buyerText`
(chars 42–46). -/
def buyerUse : Identifier := ⟨str "Buyer", Span.new 42 47⟩

/-- The `party Buyer;` declaration of `buyerText`: declaration span chars
0–11, name span chars 6–10. -/
def buyerParty : PartyDef := ⟨⟨str "Buyer", Span.new 6 11⟩, Span.new 0 12⟩

/-- The `tx Pay() { input src { from: Buyer } }` transaction of
`buyerText`. -/
def payTx : TxDef :=
  { name := ⟨str "Pay", Span.new 16 19⟩
    span := Span.new 13 51
    parameters := ⟨[], Span.new 19 21⟩
    inputs := [⟨str "src", Span.new 24 49, [.from_ (.identifier buyerUse)]⟩]
    outputs := []
    mints := []
    references := []
    adhoc := []
    collateral := []
    signers := none
    validity := none
    burn := none
    metadata := none }

/-- Parse tree of `buyerText`. -/
def buyerProgram : Program := ⟨[buyerParty], [], [], [], [payTx]⟩

/-- Source text of the spec's hover scenario: `tx Swap(amt: Int) { }`. -/
def swapText : List Char := str "tx Swap(amt: Int) { }"

/-- The `tx Swap(amt: Int) { }` transaction of `swapText`: name span chars
3–6, parameter list span chars 7–16, parameter name span chars 8–10,
parameter type `Int` at chars 13–15. -/
def swapTx : TxDef :=
  { name := ⟨str "Swap", Span.new 3 7⟩
    span := Span.new 0 21
    parameters :=
      ⟨[⟨⟨str "amt", Span.new 8 11⟩, .mk .int (Span.new 13 16)⟩], Span.new 7 17⟩
    inputs := []
    outputs := []
    mints := []
    references := []
    adhoc := []
    collateral := []
    signers := none
    validity := none
    burn := none
    metadata := none }

/-- Parse tree of `swapText`. -/
def swapProgram : Program := ⟨[], [], [], [], [swapTx]⟩

/-- Modelled from the spec: reconstruction of absolute token positions by
integrating the deltas — the line is the running sum of `delta_line`, and
the start is the previous start plus `delta_start` when `delta_line` is
zero, otherwise `delta_start` alone. -/
def decodeTokensAux (line start : Nat) : List SemanticToken → List Position
  | [] => []
  | tok :: rest =>
    let line' := line + tok.delta_line
    let start' :=
      if tok.delta_line = 0 then start + tok.delta_start else tok.delta_start
    ⟨line', start'⟩ :: decodeTokensAux line' start' rest

/-- Reconstruction of a whole token stream, starting from the origin. -/
def decodeTokens (toks : List SemanticToken) : List Position :=
  decodeTokensAux 0 0 toks

/-- Soundness predicate for the visitor: every identifier the result can
carry has the queried offset inside its own span. -/
def idOk (offset : Nat) (r : Option SymbolAtOffset) : Prop :=
  ∀ id, r = some (.identifier id) → in_span id.span offset = true

/-! ## Theorems -/

theorem oor_eq_some {α : Type} {a b : Option α} {x : α} :
    oor a b = some x ↔ a = some x ∨ (a = none ∧ b = some x) := by
  cases a <;> simp [oor]

theorem oor_eq_none {α : Type} {a b : Option α} :
    oor a b = none ↔ a = none ∧ b = none := by
  cases a <;> simp [oor]

theorem firstSome_eq_some {α β : Type} {f : α → Option β} {l : List α} {b : β}
    (h : firstSome f l = some b) : ∃ a ∈ l, f a = some b := by
  induction l with
  | nil => simp [firstSome] at h
  | cons a rest ih =>
    rcases oor_eq_some.mp h with h1 | ⟨_, h2⟩
    · exact ⟨a, List.mem_cons_self a rest, h1⟩
    · rcases ih h2 with ⟨a', ha', hf⟩
      exact ⟨a', List.mem_cons_of_mem a ha', hf⟩

theorem firstSome_eq_none {α β : Type} {f : α → Option β} {l : List α}
    (h : ∀ a ∈ l, f a = none) : firstSome f l = none := by
  induction l with
  | nil => rfl
  | cons a rest ih =>
    show oor (f a) (firstSome f rest) = none
    rw [h a (List.mem_cons_self a rest), ih (fun a' ha' => h a' (List.mem_cons_of_mem a ha'))]
    rfl

theorem idOk_none {offset : Nat} : idOk offset none := by
  intro id h
  simp at h

theorem idOk_oor {offset : Nat} {a b : Option SymbolAtOffset}
    (ha : idOk offset a) (hb : idOk offset b) : idOk offset (oor a b) := by
  intro id h
  rcases oor_eq_some.mp h with h1 | ⟨_, h2⟩
  · exact ha id h1
  · exact hb id h2

theorem idOk_firstSome {offset : Nat} {α : Type} {f : α → Option SymbolAtOffset}
    {l : List α} (h : ∀ a ∈ l, idOk offset (f a)) :
    idOk offset (firstSome f l) := by
  intro id hid
  rcases firstSome_eq_some hid with ⟨a, ha, hf⟩
  exact h a ha id hf

theorem idOk_visit_identifier (id : Identifier) (offset : Nat) :
    idOk offset (visit_identifier id offset) := by
  intro id' h
  unfold visit_identifier at h
  split at h
  · cases h
    assumption
  · simp at h

theorem idOk_guard {offset : Nat} (id : Identifier) :
    idOk offset (if in_span id.span offset then some (.identifier id) else none) := by
  intro id' hid
  split at hid
  · cases hid
    assumption
  · simp at hid

theorem visit_type_idOk (tr : TypeRecord) (offset : Nat) :
    idOk offset (visit_type tr offset) := by
  cases tr with
  | mk t s =>
    cases t with
    | custom id => exact idOk_visit_identifier id offset
    | listTy inner => exact visit_type_idOk inner offset
    | int => exact idOk_none
    | bool => exact idOk_none
    | bytes => exact idOk_none
    | otherTy => exact idOk_none

theorem visit_id_list_idOk (ids : List Identifier) (offset : Nat) :
    idOk offset (visit_id_list ids offset) :=
  idOk_firstSome (fun id _ => idOk_visit_identifier id offset)

theorem visit_property_access_idOk (pa : PropertyAccess) (offset : Nat) :
    idOk offset (visit_property_access pa offset) :=
  idOk_oor (idOk_visit_identifier pa.object offset)
    (visit_id_list_idOk pa.path offset)

theorem visit_data_family_idOk : ∀ (n : Nat),
    (∀ e : DataExpr, sizeOf e ≤ n → ∀ offset,
      idOk offset (visit_data_expr e offset)) ∧
    (∀ l : DataExprList, sizeOf l ≤ n → ∀ offset,
      idOk offset (visit_data_expr_list l offset)) ∧
    (∀ sc : StructConstructor, sizeOf sc ≤ n → ∀ offset,
      idOk offset (visit_struct_constructor sc offset)) ∧
    (∀ vc : VariantCaseConstructor, sizeOf vc ≤ n → ∀ offset,
      idOk offset (visit_variant_case_constructor vc offset)) ∧
    (∀ l : RcfList, sizeOf l ≤ n → ∀ offset,
      idOk offset (visit_rcf_list l offset)) ∧
    (∀ f : RecordConstructorField, sizeOf f ≤ n → ∀ offset,
      idOk offset (visit_record_constructor_field f offset)) := by
  intro n
  induction n with
  | zero =>
    refine ⟨fun e he => ?_, fun l hl => ?_, fun sc hsc => ?_, fun vc hvc => ?_,
      fun l hl => ?_, fun f hf => ?_⟩
    · cases e <;> simp_arith at he
    · cases l <;> simp_arith at hl
    · cases sc <;> simp_arith at hsc
    · cases vc <;> simp_arith at hvc
    · cases l <;> simp_arith at hl
    · cases f <;> simp_arith at hf
  | succ n ih =>
    obtain ⟨ihE, ihL, ihS, ihV, ihR, ihF⟩ := ih
    refine ⟨fun e he offset => ?_, fun l hl offset => ?_, fun sc hsc offset => ?_,
      fun vc hvc offset => ?_, fun l hl offset => ?_, fun f hf offset => ?_⟩
    · cases e with
      | identifier id => exact idOk_visit_identifier id offset
      | structConstructor sc =>
        refine ihS sc ?_ offset
        simp_arith at he
        omega
      | listConstructor els =>
        refine ihL els ?_ offset
        simp_arith at he
        omega
      | propertyAccess pa => exact visit_property_access_idOk pa offset
      | binaryOp l r =>
        simp_arith at he
        exact idOk_oor (ihE l (by omega) offset) (ihE r (by omega) offset)
      | otherData => exact idOk_none
    · cases l with
      | nil => exact idOk_none
      | cons e rest =>
        simp_arith at hl
        exact idOk_oor (ihE e (by omega) offset) (ihL rest (by omega) offset)
    · cases sc with
      | mk ty case =>
        simp_arith at hsc
        exact idOk_oor (idOk_visit_identifier ty offset) (ihV case (by omega) offset)
    · cases vc with
      | mk name fields spread =>
        cases spread with
        | none =>
          simp_arith at hvc
          change idOk offset
            (oor (visit_identifier name offset)
              (oor (visit_rcf_list fields offset) none))
          exact idOk_oor (idOk_visit_identifier name offset)
            (idOk_oor (ihR fields (by omega) offset) idOk_none)
        | some e =>
          simp_arith at hvc
          change idOk offset
            (oor (visit_identifier name offset)
              (oor (visit_rcf_list fields offset) (visit_data_expr e offset)))
          exact idOk_oor (idOk_visit_identifier name offset)
            (idOk_oor (ihR fields (by omega) offset) (ihE e (by omega) offset))
    · cases l with
      | nil => exact idOk_none
      | cons f rest =>
        simp_arith at hl
        exact idOk_oor (ihF f (by omega) offset) (ihR rest (by omega) offset)
    · cases f with
      | mk name value =>
        simp_arith at hf
        exact idOk_oor (idOk_visit_identifier name offset) (ihE value (by omega) offset)

theorem visit_data_expr_idOk (e : DataExpr) (offset : Nat) :
    idOk offset (visit_data_expr e offset) :=
  (visit_data_family_idOk (sizeOf e)).1 e (Nat.le_refl _) offset

theorem visit_asset_expr_idOk (e : AssetExpr) (offset : Nat) :
    idOk offset (visit_asset_expr e offset) := by
  cases e with
  | identifier id => exact idOk_visit_identifier id offset
  | staticConstructor ty amount =>
    exact idOk_oor (idOk_visit_identifier ty offset)
      (visit_data_expr_idOk amount offset)
  | anyConstructor policy assetName amount =>
    exact idOk_oor (visit_data_expr_idOk policy offset)
      (idOk_oor (visit_data_expr_idOk assetName offset)
        (visit_data_expr_idOk amount offset))
  | binaryOp l r =>
    exact idOk_oor (visit_asset_expr_idOk l offset) (visit_asset_expr_idOk r offset)
  | propertyAccess pa => exact visit_property_access_idOk pa offset

theorem visit_address_expr_idOk (e : AddressExpr) (offset : Nat) :
    idOk offset (visit_address_expr e offset) := by
  cases e with
  | identifier id => exact idOk_visit_identifier id offset
  | otherAddress => exact idOk_none

theorem visit_input_block_field_idOk (f : InputBlockField) (offset : Nat) :
    idOk offset (visit_input_block_field f offset) := by
  cases f with
  | from_ addr => exact visit_address_expr_idOk addr offset
  | datumIs ty => exact visit_type_idOk ty offset
  | minAmount expr => exact visit_asset_expr_idOk expr offset
  | redeemer expr => exact visit_data_expr_idOk expr offset
  | ref expr => exact visit_data_expr_idOk expr offset

theorem visit_input_block_idOk (input : InputBlock) (offset : Nat) :
    idOk offset (visit_input_block input offset) :=
  idOk_firstSome (fun f _ => visit_input_block_field_idOk f offset)

theorem visit_output_block_field_idOk (f : OutputBlockField) (offset : Nat) :
    idOk offset (visit_output_block_field f offset) := by
  cases f with
  | to_ addr => exact visit_address_expr_idOk addr offset
  | amount expr => exact visit_asset_expr_idOk expr offset
  | datum expr => exact visit_data_expr_idOk expr offset

theorem visit_output_block_idOk (output : OutputBlock) (offset : Nat) :
    idOk offset (visit_output_block output offset) :=
  idOk_firstSome (fun f _ => visit_output_block_field_idOk f offset)

theorem visit_mint_block_field_idOk (f : MintBlockField) (offset : Nat) :
    idOk offset (visit_mint_block_field f offset) := by
  cases f with
  | amount expr => exact visit_asset_expr_idOk expr offset
  | redeemer expr => exact visit_data_expr_idOk expr offset

theorem visit_mint_block_idOk (mb : MintBlock) (offset : Nat) :
    idOk offset (visit_mint_block mb offset) :=
  idOk_firstSome (fun f _ => visit_mint_block_field_idOk f offset)

theorem visit_burn_block_idOk (bb : BurnBlock) (offset : Nat) :
    idOk offset (visit_burn_block bb offset) :=
  idOk_firstSome (fun f _ => visit_mint_block_field_idOk f offset)

theorem visit_reference_block_idOk (rb : ReferenceBlock) (offset : Nat) :
    idOk offset (visit_reference_block rb offset) :=
  visit_data_expr_idOk rb.ref offset

theorem visit_collateral_block_field_idOk (f : CollateralBlockField)
    (offset : Nat) : idOk offset (visit_collateral_block_field f offset) := by
  cases f with
  | from_ addr => exact visit_address_expr_idOk addr offset
  | minAmount expr => exact visit_asset_expr_idOk expr offset
  | ref expr => exact visit_data_expr_idOk expr offset

theorem visit_collateral_block_idOk (cb : CollateralBlock) (offset : Nat) :
    idOk offset (visit_collateral_block cb offset) :=
  idOk_firstSome (fun f _ => visit_collateral_block_field_idOk f offset)

theorem visit_signers_block_idOk (sb : SignersBlock) (offset : Nat) :
    idOk offset (visit_signers_block sb offset) :=
  idOk_firstSome (fun e _ => visit_data_expr_idOk e offset)

theorem visit_validity_block_field_idOk (f : ValidityBlockField) (offset : Nat) :
    idOk offset (visit_validity_block_field f offset) := by
  cases f with
  | sinceSlot expr => exact visit_data_expr_idOk expr offset
  | untilSlot expr => exact visit_data_expr_idOk expr offset

theorem visit_validity_block_idOk (vb : ValidityBlock) (offset : Nat) :
    idOk offset (visit_validity_block vb offset) :=
  idOk_firstSome (fun f _ => visit_validity_block_field_idOk f offset)

theorem visit_parameter_list_idOk (params : ParameterList) (offset : Nat) :
    idOk offset (visit_parameter_list params offset) :=
  idOk_firstSome
    (fun param _ =>
      idOk_oor (idOk_guard param.name) (visit_type_idOk param.ty offset))

theorem visit_tx_def_idOk (tx : TxDef) (offset : Nat) :
    idOk offset (visit_tx_def tx offset) := by
  refine idOk_oor (idOk_guard tx.name)
    (idOk_oor (visit_parameter_list_idOk tx.parameters offset)
      (idOk_oor (idOk_firstSome (fun i _ => visit_input_block_idOk i offset))
        (idOk_oor (idOk_firstSome (fun o _ => visit_output_block_idOk o offset))
          (idOk_oor (idOk_firstSome (fun m _ => visit_mint_block_idOk m offset))
            (idOk_oor (idOk_firstSome (fun r _ => visit_reference_block_idOk r offset))
              (idOk_oor (idOk_firstSome (fun c _ => idOk_none))
                (idOk_oor (idOk_firstSome (fun c _ => visit_collateral_block_idOk c offset))
                  (idOk_oor ?_ (idOk_oor ?_ (idOk_oor ?_ ?_))))))))))
  · cases tx.signers with
    | none => exact idOk_none
    | some s => exact visit_signers_block_idOk s offset
  · cases tx.validity with
    | none => exact idOk_none
    | some v => exact visit_validity_block_idOk v offset
  · cases tx.burn with
    | none => exact idOk_none
    | some b => exact visit_burn_block_idOk b offset
  · cases tx.metadata with
    | none => exact idOk_none
    | some m => exact idOk_none

theorem visit_asset_def_idOk (asset : AssetDef) (offset : Nat) :
    idOk offset (visit_asset_def asset offset) :=
  idOk_oor (visit_data_expr_idOk asset.policy offset)
    (visit_data_expr_idOk asset.assetName offset)

theorem visit_record_field_idOk (field : RecordField) (offset : Nat) :
    idOk offset (visit_record_field field offset) :=
  idOk_oor (idOk_guard field.name) (visit_type_idOk field.ty offset)

theorem visit_variant_case_idOk (case : VariantCase) (offset : Nat) :
    idOk offset (visit_variant_case case offset) :=
  idOk_firstSome (fun field _ => visit_record_field_idOk field offset)

theorem visit_type_def_case_idOk (case : VariantCase) (offset : Nat) :
    idOk offset (visit_type_def_case case offset) := by
  refine idOk_oor (idOk_firstSome (fun field _ => ?_))
    (visit_variant_case_idOk case offset)
  intro id h
  split at h
  · simp at h
  · simp at h

theorem visit_type_def_idOk (ty : TypeDef) (offset : Nat) :
    idOk offset (visit_type_def ty offset) :=
  idOk_oor (idOk_guard ty.name)
    (idOk_firstSome (fun case _ => visit_type_def_case_idOk case offset))

theorem visit_policy_field_idOk (f : PolicyField) (offset : Nat) :
    idOk offset (visit_policy_field f offset) := by
  cases f with
  | hash expr => exact visit_data_expr_idOk expr offset
  | script expr => exact visit_data_expr_idOk expr offset
  | ref expr => exact visit_data_expr_idOk expr offset

theorem visit_party_def_sound {party : PartyDef} {offset : Nat} {id : Identifier}
    (h : visit_party_def party offset = some (.identifier id)) :
    id = party.name ∧ in_span party.span offset = true := by
  unfold visit_party_def at h
  split at h
  · cases h
    exact ⟨rfl, by assumption⟩
  · simp at h

theorem visit_policy_def_sound {policy : PolicyDef} {offset : Nat} {id : Identifier}
    (h : visit_policy_def policy offset = some (.identifier id)) :
    in_span id.span offset = true ∨
      (id = policy.name ∧ in_span policy.span offset = true) := by
  obtain ⟨name, span, value⟩ := policy
  cases value with
  | constructor c =>
    exact Or.inl (idOk_firstSome (fun f _ => visit_policy_field_idOk f offset) id h)
  | assign u =>
    simp only [visit_policy_def] at h
    split at h
    · cases h
      exact Or.inr ⟨rfl, by assumption⟩
    · simp at h

/-- C2, amended: whenever the Tree Visitor (`find_symbol_in_program`)
returns an identifier `id`, the queried offset lies inside `id`'s own span
(`id.span.start <= offset < id.span.end`) — except when `id` is the name of
a party declaration, or of an assignment-form policy declaration, whose
*declaration* span contains the offset (those two visitors answer for their
whole declaration span). -/
theorem C2_visitor_span_containment_amended
    (program : Program) (offset : Nat) (id : Identifier)
    (h : find_symbol_in_program program offset = some (.identifier id)) :
    in_span id.span offset = true ∨
      (∃ p ∈ program.parties, id = p.name ∧ in_span p.span offset = true) ∨
      (∃ p ∈ program.policies, id = p.name ∧ in_span p.span offset = true) := by
  unfold find_symbol_in_program at h
  rcases oor_eq_some.mp h with htx | ⟨-, h⟩
  · exact Or.inl (idOk_firstSome (fun tx _ => visit_tx_def_idOk tx offset) id htx)
  rcases oor_eq_some.mp h with hassets | ⟨-, h⟩
  · exact Or.inl
      (idOk_firstSome (fun a _ => visit_asset_def_idOk a offset) id hassets)
  rcases oor_eq_some.mp h with htypes | ⟨-, h⟩
  · exact Or.inl
      (idOk_firstSome (fun t _ => visit_type_def_idOk t offset) id htypes)
  rcases oor_eq_some.mp h with hparties | ⟨-, hpolicies⟩
  · rcases firstSome_eq_some hparties with ⟨p, hp, hvisit⟩
    exact Or.inr (Or.inl ⟨p, hp, visit_party_def_sound hvisit⟩)
  · rcases firstSome_eq_some hpolicies with ⟨p, hp, hvisit⟩
    rcases visit_policy_def_sound hvisit with hin | hdecl
    · exact Or.inl hin
    · exact Or.inr (Or.inr ⟨p, hp, hdecl⟩)

/-- C2 counterexample: in the scenario program, querying offset 0 (on the
`party` keyword of `party Buyer;`) returns the identifier `Buyer` whose own
span is chars 6–10, which does not contain offset 0 — refuting
`id.span.start <= o < id.span.end` as stated. -/
theorem C2_visitor_span_counterexample :
    find_symbol_in_program buyerProgram 0 =
        some (.identifier ⟨str "Buyer", Span.new 6 11⟩) ∧
      in_span (Span.new 6 11) 0 = false := by
  exact ⟨rfl, rfl⟩

/-- C2 witness: the amended containment theorem applied to the scenario
program at offset 0, where the party-declaration disjunct is the one that
holds. -/
theorem C2_visitor_span_containment_witness :
    in_span buyerUse.span 42 = true ∨
      (∃ p ∈ buyerProgram.parties,
        buyerUse = p.name ∧ in_span p.span 42 = true) ∨
      (∃ p ∈ buyerProgram.policies,
        buyerUse = p.name ∧ in_span p.span 42 = true) :=
  C2_visitor_span_containment_amended buyerProgram 42 buyerUse rfl

/-- C4: in the scenario program (`party Buyer;` with
`tx Pay() { input src { from: Buyer } }`), the definition query at any
offset inside the `Buyer` occurrence of the input block returns exactly the
span of the `party Buyer;` declaration; and in general, whenever the
resolved identifier's text matches no party or policy name and, in every
transaction whose span contains the offset, no parameter, input, output or
reference name, the definition query returns no result. -/
theorem C4_goto_definition_party :
    (∀ (uri : Url) (offset : Nat), 42 ≤ offset → offset < 47 →
      goto_definition_logic buyerProgram buyerText uri offset =
        some ⟨uri, span_to_lsp_range buyerText buyerParty.span⟩) ∧
    (∀ (ast : Program) (t : List Char) (uri : Url) (offset : Nat)
      (id : Identifier),
      find_symbol_in_program ast offset = some (.identifier id) →
      (∀ p ∈ ast.parties, p.name.value ≠ id.value) →
      (∀ p ∈ ast.policies, p.name.value ≠ id.value) →
      (∀ tx ∈ ast.txs, span_contains tx.span offset = true →
        (∀ param ∈ tx.parameters.parameters, param.name.value ≠ id.value) ∧
        (∀ input ∈ tx.inputs, input.name ≠ id.value) ∧
        (∀ output ∈ tx.outputs, output.name ≠ some id.value) ∧
        (∀ r ∈ tx.references, r.name ≠ id.value)) →
      goto_definition_logic ast t uri offset = none) := by
  constructor
  · intro uri offset h1 h2
    interval_cases offset <;> rfl
  · intro ast t uri offset id hfind hparties hpolicies htxs
    unfold goto_definition_logic
    rw [hfind]
    refine oor_eq_none.mpr ⟨firstSome_eq_none ?_, oor_eq_none.mpr
      ⟨firstSome_eq_none ?_, firstSome_eq_none ?_⟩⟩
    · intro p hp
      exact if_neg (fun hc => hparties p hp hc)
    · intro p hp
      exact if_neg (fun hc => hpolicies p hp hc)
    · intro tx htx
      by_cases hc : span_contains tx.span offset = true
      · rcases htxs tx htx hc with ⟨hpar, hin, hout, href⟩
        rw [if_pos hc]
        refine oor_eq_none.mpr ⟨firstSome_eq_none ?_, oor_eq_none.mpr
          ⟨firstSome_eq_none ?_, oor_eq_none.mpr
            ⟨firstSome_eq_none ?_, firstSome_eq_none ?_⟩⟩⟩
        · intro param hparam
          exact if_neg (fun heq => hpar param hparam heq)
        · intro input hinput
          exact if_neg (fun heq => hin input hinput heq)
        · intro output houtput
          cases ho : output.name with
          | none => rfl
          | some n =>
            refine if_neg (fun heq => ?_)
            exact hout output houtput (by rw [ho, heq])
        · intro r hr
          exact if_neg (fun heq => href r hr heq)
      · rw [if_neg hc]

/-- C4 witness: the scenario part applied at offset 42 (the first char of
the `Buyer` occurrence), and the no-declaration part applied at offset 16
(the transaction name `Pay`, which matches no declaration table entry). -/
theorem C4_goto_definition_party_witness :
    goto_definition_logic buyerProgram buyerText (str "file:a") 42 =
        some ⟨str "file:a", span_to_lsp_range buyerText buyerParty.span⟩ ∧
      goto_definition_logic buyerProgram buyerText (str "file:a") 16 = none :=
  ⟨C4_goto_definition_party.1 (str "file:a") 42 (by decide) (by decide),
    C4_goto_definition_party.2 buyerProgram buyerText (str "file:a") 16
      ⟨str "Pay", Span.new 16 19⟩ rfl (by decide) (by decide) (by decide)⟩

theorem oor_none_left {α : Type} (b : Option α) : oor none b = b := rfl

theorem oor_assoc {α : Type} (a b c : Option α) :
    oor (oor a b) c = oor a (oor b c) := by
  cases a <;> rfl

theorem firstSome_append {α β : Type} (f : α → Option β) (l1 l2 : List α) :
    firstSome f (l1 ++ l2) = oor (firstSome f l1) (firstSome f l2) := by
  induction l1 with
  | nil => rfl
  | cons a rest ih =>
    show oor (f a) (firstSome f (rest ++ l2)) = _
    rw [ih, ← oor_assoc]
    rfl

theorem infix_append_mid {α : Type} (x l y : List α) : l <:+: x ++ l ++ y :=
  ⟨x, y, rfl⟩

theorem infix_flatten_of_mem {α : Type} {x : List α} {l : List (List α)}
    (h : x ∈ l) : x <:+: l.flatten := by
  induction l with
  | nil => cases h
  | cons y ys ih =>
    rcases List.mem_cons.mp h with rfl | h'
    · exact ⟨[], ys.flatten, by simp⟩
    · exact (ih h').trans ⟨y, [], by simp⟩

/-- C5, amended: for a transaction with a non-empty parameter list and no
input and no output blocks, hover at an offset inside the transaction's span
— but outside the parameter-list span (where hover shows the single
parameter instead) and outside every other declaration checked first —
returns the transaction template, which contains one bulleted line
``- `name`: `type` `` per parameter and, whenever the rendered names contain
no letter `u` (as in the `Swap`/`Int` scenario), no `**Inputs**` and no
`**Outputs**` section. -/
theorem C5_hover_transaction_template (ast : Program) (t : List Char)
    (offset : Nat) (pre post : List TxDef) (tx : TxDef)
    (htxs : ast.txs = pre ++ tx :: post)
    (hparties : ∀ p ∈ ast.parties, span_contains p.span offset = false)
    (hpolicies : ∀ p ∈ ast.policies, span_contains p.span offset = false)
    (htypes : ∀ ty ∈ ast.types, span_contains ty.span offset = false)
    (hassets : ∀ a ∈ ast.assets, span_contains a.span offset = false)
    (hpre : ∀ tx' ∈ pre, hoverTx t offset tx' = none)
    (hinputs : tx.inputs = [])
    (houtputs : tx.outputs = [])
    (hparams : span_contains tx.parameters.span offset = false)
    (hspan : span_contains tx.span offset = true) :
    hover_logic ast t offset =
        some ⟨txHoverText tx, span_to_lsp_range t tx.span⟩ ∧
      (∀ param ∈ tx.parameters.parameters, paramLine param <:+: txHoverText tx) ∧
      (('u' ∉ tx.name.value ∧
          ∀ param ∈ tx.parameters.parameters,
            'u' ∉ param.name.value ∧ 'u' ∉ typeDebug param.ty) →
        ¬ (str "**Inputs**") <:+: txHoverText tx ∧
          ¬ (str "**Outputs**") <:+: txHoverText tx) := by
  refine ⟨?_, ?_, ?_⟩
  · unfold hover_logic
    rw [firstSome_eq_none (fun p hp => by simp [hparties p hp]),
      firstSome_eq_none (fun p hp => by simp [hpolicies p hp]),
      firstSome_eq_none (fun ty hty => by simp [htypes ty hty]),
      firstSome_eq_none (fun a ha => by simp [hassets a ha]),
      oor_none_left, oor_none_left, oor_none_left, oor_none_left,
      htxs, firstSome_append, firstSome_eq_none hpre, oor_none_left]
    show oor (hoverTx t offset tx) _ = _
    have hx : hoverTx t offset tx =
        some ⟨txHoverText tx, span_to_lsp_range t tx.span⟩ := by
      unfold hoverTx
      rw [hinputs, houtputs]
      show oor none (oor none _) = _
      rw [oor_none_left, oor_none_left]
      simp [hparams, hspan, oor]
    rw [hx]
    rfl
  · intro param hparam
    have hne : tx.parameters.parameters.isEmpty = false := by
      cases hl : tx.parameters.parameters with
      | nil => rw [hl] at hparam; cases hparam
      | cons a rest => rfl
    have h1 : paramLine param <:+: (tx.parameters.parameters.map paramLine).flatten :=
      infix_flatten_of_mem (List.mem_map_of_mem paramLine hparam)
    have h2 : (tx.parameters.parameters.map paramLine).flatten <:+:
        str "**Parameters**:\n" ++
          (tx.parameters.parameters.map paramLine).flatten ++ str "\n" :=
      infix_append_mid _ _ _
    refine (h1.trans h2).trans ?_
    unfold txHoverText
    rw [hne, hinputs, houtputs]
    simp only [List.isEmpty_nil, if_true, if_false, Bool.false_eq_true]
    exact ⟨str "**Transaction**: `" ++ tx.name.value ++ str "`\n\n", [],
      by simp [List.append_assoc]⟩
  · intro hu
    have hmem : 'u' ∉ txHoverText tx := by
      unfold txHoverText
      rw [hinputs, houtputs]
      simp only [List.isEmpty_nil, List.append_nil, if_true]
      intro hmem
      rcases List.mem_append.mp hmem with hmem | hmem
      · rcases List.mem_append.mp hmem with hmem | hmem
        · rcases List.mem_append.mp hmem with hmem | hmem
          · exact absurd hmem (by decide)
          · exact hu.1 hmem
        · exact absurd hmem (by decide)
      · split at hmem
        · cases hmem
        · rcases List.mem_append.mp hmem with hmem | hmem
          · rcases List.mem_append.mp hmem with hmem | hmem
            · exact absurd hmem (by decide)
            · rcases List.mem_flatten.mp hmem with ⟨line, hline, hmemline⟩
              rcases List.mem_map.mp hline with ⟨param, hparam, rfl⟩
              unfold paramLine at hmemline
              rcases List.mem_append.mp hmemline with hm | hm
              · rcases List.mem_append.mp hm with hm | hm
                · rcases List.mem_append.mp hm with hm | hm
                  · rcases List.mem_append.mp hm with hm | hm
                    · exact absurd hm (by decide)
                    · exact (hu.2 param hparam).1 hm
                  · exact absurd hm (by decide)
                · exact (hu.2 param hparam).2 hm
              · exact absurd hm (by decide)
          · exact absurd hmem (by decide)
    constructor
    · intro hinf
      exact hmem (hinf.subset (by decide))
    · intro hinf
      exact hmem (hinf.subset (by decide))

/-- C5 counterexample: at offset 8 — inside the `Swap` transaction but on
the parameter list — hover returns the single-parameter hover, whose text
does not contain the bulleted line ``- `amt`: `Int` ``, refuting the claim
for arbitrary offsets inside the transaction. -/
theorem C5_hover_counterexample :
    hover_logic swapProgram swapText 8 =
        some ⟨str "**Parameter**: `amt`\n\n**Type**: `Int`",
          span_to_lsp_range swapText (Span.new 7 17)⟩ ∧
      ¬ (str "- `amt`: `Int`") <:+:
          (str "**Parameter**: `amt`\n\n**Type**: `Int`") := by
  exact ⟨rfl, by decide⟩

/-- C5 witness: the amended hover theorem applied to the `Swap` scenario at
offset 18 (inside the transaction body), fully instantiated. -/
theorem C5_hover_transaction_template_witness :
    hover_logic swapProgram swapText 18 =
        some ⟨txHoverText swapTx, span_to_lsp_range swapText swapTx.span⟩ ∧
      paramLine ⟨⟨str "amt", Span.new 8 11⟩, .mk .int (Span.new 13 16)⟩ <:+:
        txHoverText swapTx ∧
      ¬ (str "**Inputs**") <:+: txHoverText swapTx ∧
      ¬ (str "**Outputs**") <:+: txHoverText swapTx := by
  have h := C5_hover_transaction_template swapProgram swapText 18 [] [] swapTx
    rfl (by simp [swapProgram]) (by simp [swapProgram]) (by simp [swapProgram])
    (by simp [swapProgram]) (by simp) rfl rfl (by decide) (by decide)
  exact ⟨h.1, h.2.1 _ (List.Mem.head _), (h.2.2 (by decide)).1,
    (h.2.2 (by decide)).2⟩


theorem mem_of_getLast?_eq {α : Type} {l : List α} {c : α}
    (h : l.getLast? = some c) : c ∈ l := by
  have hx : c ∈ l.getLast? := by rw [h]; rfl
  rcases List.mem_getLast?_eq_getLast hx with ⟨hne, heq⟩
  rw [heq]
  exact List.getLast_mem hne

theorem splitFirstNl_some {t l rest : List Char}
    (h : splitFirstNl t = (l, some rest)) :
    t = l ++ '\n' :: rest ∧ '\n' ∉ l := by
  induction t generalizing l with
  | nil => simp [splitFirstNl] at h
  | cons c cs ih =>
    unfold splitFirstNl at h
    split at h
    · rename_i hc
      cases h
      exact ⟨by simp [hc], by simp⟩
    · rename_i hc
      cases hsp : splitFirstNl cs with
      | mk l2 r2 =>
        rw [hsp] at h
        cases h
        rcases ih (l := l2) (by rw [hsp]) with ⟨h1, h2⟩
        refine ⟨by simp [h1], ?_⟩
        simp only [List.mem_cons, not_or]
        exact ⟨fun he => hc he.symm, h2⟩

theorem splitFirstNl_none {t l : List Char} (h : splitFirstNl t = (l, none)) :
    t = l ∧ '\n' ∉ l := by
  induction t generalizing l with
  | nil =>
    unfold splitFirstNl at h
    cases h
    exact ⟨rfl, by simp⟩
  | cons c cs ih =>
    unfold splitFirstNl at h
    split at h
    · cases h
    · rename_i hc
      cases hsp : splitFirstNl cs with
      | mk l2 r2 =>
        rw [hsp] at h
        cases h
        rcases ih (l := l2) (by rw [hsp]) with ⟨h1, h2⟩
        refine ⟨by simp [h1], ?_⟩
        simp only [List.mem_cons, not_or]
        exact ⟨fun he => hc he.symm, h2⟩

theorem splitIncNl_line {l : List Char} (rest : List Char) (hl : '\n' ∉ l) :
    splitIncNl (l ++ '\n' :: rest) = (l ++ ['\n']) :: splitIncNl rest := by
  induction l with
  | nil => simp [splitIncNl]
  | cons c cs ih =>
    simp only [List.mem_cons, not_or] at hl
    have hc : ¬ c = '\n' := fun he => hl.1 he.symm
    show splitIncNl (c :: (cs ++ '\n' :: rest)) = _
    simp only [splitIncNl]
    rw [if_neg hc, ih hl.2]
    rfl

theorem splitIncNl_noNl {l : List Char} (hl : '\n' ∉ l) (hne : l ≠ []) :
    splitIncNl l = [l] := by
  induction l with
  | nil => exact absurd rfl hne
  | cons c cs ih =>
    simp only [List.mem_cons, not_or] at hl
    have hc : ¬ c = '\n' := fun he => hl.1 he.symm
    simp only [splitIncNl]
    rw [if_neg hc]
    cases hcs : cs with
    | nil => simp [splitIncNl]
    | cons d ds =>
      rw [← hcs, ih hl.2 (by rw [hcs]; simp)]

theorem stripLineTerm_append_nl {l : List Char} (hr : '\r' ∉ l) :
    stripLineTerm (l ++ ['\n']) = l := by
  unfold stripLineTerm
  rw [if_pos (List.getLast?_concat l), List.dropLast_concat]
  rw [if_neg (fun hc => hr (mem_of_getLast?_eq hc))]

theorem stripLineTerm_noNl {l : List Char} (hl : '\n' ∉ l) :
    stripLineTerm l = l := by
  unfold stripLineTerm
  rw [if_neg (fun hc => hl (mem_of_getLast?_eq hc))]

theorem rustLines_cons_line {l : List Char} (rest : List Char)
    (hl : '\n' ∉ l) (hr : '\r' ∉ l) :
    rustLines (l ++ '\n' :: rest) = l :: rustLines rest := by
  unfold rustLines
  rw [splitIncNl_line rest hl, List.map_cons, stripLineTerm_append_nl hr]

theorem rustLines_noNl {l : List Char} (hl : '\n' ∉ l) (hne : l ≠ []) :
    rustLines l = [l] := by
  unfold rustLines
  rw [splitIncNl_noNl hl hne, List.map_cons, stripLineTerm_noNl hl]
  rfl

theorem strByteLen_eq_length {l : List Char} (h : ∀ c ∈ l, c.utf8Size = 1) :
    strByteLen l = l.length := by
  induction l with
  | nil => rfl
  | cons c cs ih =>
    show c.utf8Size + strByteLen cs = cs.length + 1
    rw [h c (List.mem_cons_self c cs),
      ih (fun x hx => h x (List.mem_cons_of_mem c hx))]
    omega

theorem posToOffsetAux_clamp : ∀ (ls : List (List Char)) (line c : Nat)
    (l : List Char), ls[line]? = some l → strByteLen l ≤ c →
    posToOffsetAux ls line c = posToOffsetAux ls line (strByteLen l) := by
  intro ls
  induction ls with
  | nil =>
    intro line c l h
    simp at h
  | cons a rest ih =>
    intro line c l h hc
    cases line with
    | zero =>
      simp at h
      subst h
      simp [posToOffsetAux]
      omega
    | succ n =>
      simp at h
      simp only [posToOffsetAux, Nat.add_sub_cancel, if_neg (Nat.succ_ne_zero n)]
      rw [ih n c l h hc]

theorem posToOffsetAux_beyond : ∀ (ls : List (List Char)) (line c : Nat),
    ls.length ≤ line → posToOffsetAux ls line c = sumLineLens ls := by
  intro ls
  induction ls with
  | nil => intro line c h; rfl
  | cons a rest ih =>
    intro line c h
    simp at h
    cases line with
    | zero => omega
    | succ n =>
      show strByteLen a + 1 + posToOffsetAux rest n c = _
      rw [ih n c (by omega)]
      rfl

theorem sumLineLens_eq_length : ∀ (n : Nat) (t : List Char), t.length ≤ n →
    '\r' ∉ t → (∀ c ∈ t, c.utf8Size = 1) → t.getLast? = some '\n' →
    sumLineLens (rustLines t) = t.length := by
  intro n
  induction n with
  | zero =>
    intro t hn hr hascii hlast
    have : t = [] := List.length_eq_zero.mp (Nat.le_zero.mp hn)
    subst this
    cases hlast
  | succ n ih =>
    intro t hn hr hascii hlast
    cases hsp : splitFirstNl t with
    | mk l r =>
      cases r with
      | none =>
        rcases splitFirstNl_none hsp with ⟨ht, hnl⟩
        subst ht
        exact absurd (mem_of_getLast?_eq hlast) hnl
      | some rest =>
        rcases splitFirstNl_some hsp with ⟨ht, hnl⟩
        subst ht
        have hrl : '\r' ∉ l := fun hm => hr (by simp [hm])
        rw [rustLines_cons_line rest hnl hrl]
        show strByteLen l + 1 + sumLineLens (rustLines rest) = _
        rw [strByteLen_eq_length (fun c hc => hascii c (by simp [hc]))]
        cases rest with
        | nil => simp [rustLines, splitIncNl, sumLineLens]
        | cons r rs =>
          have hlen : (r :: rs).length ≤ n := by
            simp at hn ⊢
            omega
          have hrr : '\r' ∉ r :: rs := fun hm => hr (by simp [hm])
          have hlast2 : (r :: rs).getLast? = some '\n' := by
            have : l ++ '\n' :: r :: rs = (l ++ ['\n']) ++ (r :: rs) := by simp
            rw [this, List.getLast?_append_of_ne_nil _ (by simp)] at hlast
            exact hlast
          rw [ih (r :: rs) hlen hrr (fun c hc => hascii c (by simp [hc])) hlast2]
          simp
          omega

/-- C9, amended: `position_to_offset` is total by construction and clamps an
out-of-range column to the target line's *byte* length (`line.len()`); when
the requested line is beyond the last line it returns the sum of
(line byte length + 1) over all lines, which equals the character count
`len(text)` exactly when the text ends with a newline, contains no carriage
returns, and consists of single-byte (ASCII) characters. -/
theorem C9_position_to_offset_total :
    (∀ (t : List Char) (line c : Nat) (l : List Char),
      (rustLines t)[line]? = some l → strByteLen l ≤ c →
      position_to_offset t ⟨line, c⟩ =
        position_to_offset t ⟨line, strByteLen l⟩) ∧
    (∀ (t : List Char) (line c : Nat),
      (rustLines t).length ≤ line →
      position_to_offset t ⟨line, c⟩ = sumLineLens (rustLines t)) ∧
    (∀ t : List Char, '\r' ∉ t → (∀ c ∈ t, c.utf8Size = 1) →
      t.getLast? = some '\n' → sumLineLens (rustLines t) = t.length) :=
  ⟨fun t line c l h hc => posToOffsetAux_clamp (rustLines t) line c l h hc,
    fun t line c h => posToOffsetAux_beyond (rustLines t) line c h,
    fun t hr hascii hlast =>
      sumLineLens_eq_length t.length t (Nat.le_refl _) hr hascii hlast⟩

/-- C9 counterexample: on the one-char text `"a"` (no trailing newline),
requesting line 1 — beyond the last line — yields offset 2, not
`len(text) = 1` as claimed; and on the newline-terminated text `"é\n"` the
beyond-last-line offset is 3 (the é is two bytes), not the character count
2 — so the end-of-text value is byte-based and not `len(text)` in
general. -/
theorem C9_beyond_text_counterexample :
    position_to_offset (str "a") ⟨1, 0⟩ = 2 ∧ (str "a").length = 1 ∧
      (2 : Nat) ≠ 1 ∧
      position_to_offset (str "é\n") ⟨1, 0⟩ = 3 ∧ (str "é\n").length = 2 ∧
      (3 : Nat) ≠ 2 := by
  exact ⟨rfl, rfl, by decide, by decide, rfl, by decide⟩

/-- C9 witness: the amended theorem instantiated on `"ab\ncd"` (clamping an
out-of-range column on line 0, and a beyond-last-line query) and on
`"ab\n"` (an ASCII newline-terminated text, whose beyond-last-line offset
equals the text length). -/
theorem C9_position_to_offset_total_witness :
    position_to_offset (str "ab\ncd") ⟨0, 7⟩ =
        position_to_offset (str "ab\ncd") ⟨0, strByteLen (str "ab")⟩ ∧
      position_to_offset (str "ab\ncd") ⟨5, 3⟩ =
        sumLineLens (rustLines (str "ab\ncd")) ∧
      sumLineLens (rustLines (str "ab\n")) = (str "ab\n").length :=
  ⟨C9_position_to_offset_total.1 (str "ab\ncd") 0 7 (str "ab") (by decide)
      (by decide),
    C9_position_to_offset_total.2.1 (str "ab\ncd") 5 3 (by decide),
    C9_position_to_offset_total.2.2 (str "ab\n") (by decide) (by decide)
      (by decide)⟩

theorem ropeCharToLine_noNl {t : List Char} (h : '\n' ∉ t) (o : Nat) :
    ropeCharToLine t o = 0 := by
  unfold ropeCharToLine
  exact List.count_eq_zero.mpr (fun hm => h (List.take_subset o t hm))

theorem ropeCharToLine_left {l rest : List Char} (hl : '\n' ∉ l) {o : Nat}
    (ho : o ≤ l.length) : ropeCharToLine (l ++ '\n' :: rest) o = 0 := by
  unfold ropeCharToLine
  rw [List.take_append_eq_append_take, Nat.sub_eq_zero_of_le ho,
    List.take_zero, List.append_nil]
  exact List.count_eq_zero.mpr (fun hm => hl (List.take_subset o l hm))

theorem ropeCharToLine_right {l rest : List Char} (hl : '\n' ∉ l) (o' : Nat) :
    ropeCharToLine (l ++ '\n' :: rest) (l.length + 1 + o') =
      1 + ropeCharToLine rest o' := by
  unfold ropeCharToLine
  rw [List.take_append_eq_append_take]
  have h1 : l.length + 1 + o' - l.length = o' + 1 := by omega
  rw [h1, List.take_of_length_le (by omega), List.take_succ_cons,
    List.count_append, List.count_cons_self, List.count_eq_zero.mpr hl]
  omega

theorem ropeLineToChar_zero (t : List Char) : ropeLineToChar t 0 = 0 := by
  cases t <;> rfl

theorem ropeLineToChar_append {l rest : List Char} (hl : '\n' ∉ l) (n : Nat) :
    ropeLineToChar (l ++ '\n' :: rest) (n + 1) =
      l.length + 1 + ropeLineToChar rest n := by
  induction l with
  | nil =>
    show ropeLineToChar ('\n' :: rest) (n + 1) = 0 + 1 + ropeLineToChar rest n
    simp only [ropeLineToChar, eq_self_iff_true, if_true]
  | cons c cs ih =>
    simp only [List.mem_cons, not_or] at hl
    have hc : ¬ c = '\n' := fun he => hl.1 he.symm
    show ropeLineToChar (c :: (cs ++ '\n' :: rest)) (n + 1) = _
    simp only [ropeLineToChar]
    rw [if_neg hc, ih hl.2]
    simp only [List.length_cons]
    omega

theorem roundtrip_aux : ∀ (n : Nat) (t : List Char), t.length ≤ n →
    '\r' ∉ t → (∀ c ∈ t, c.utf8Size = 1) → ∀ o, o ≤ t.length →
    position_to_offset t
      ⟨(char_index_to_line_col t o).1, (char_index_to_line_col t o).2⟩ = o := by
  intro n
  induction n with
  | zero =>
    intro t hn hr hascii o ho
    have ht : t = [] := List.length_eq_zero.mp (Nat.le_zero.mp hn)
    subst ht
    have ho0 : o = 0 := by simpa using ho
    subst ho0
    rfl
  | succ n ih =>
    intro t hn hr hascii o ho
    cases hsp : splitFirstNl t with
    | mk l r =>
      cases r with
      | none =>
        rcases splitFirstNl_none hsp with ⟨ht, hnl⟩
        rw [← ht] at hnl
        by_cases hne : t = []
        · subst hne
          have ho0 : o = 0 := by simpa using ho
          subst ho0
          rfl
        · unfold position_to_offset char_index_to_line_col
          dsimp only
          rw [ropeCharToLine_noNl hnl, ropeLineToChar_zero,
            rustLines_noNl hnl hne]
          simp only [posToOffsetAux, if_pos rfl, Nat.sub_zero]
          rw [strByteLen_eq_length hascii]
          exact Nat.min_eq_left ho
      | some rest =>
        rcases splitFirstNl_some hsp with ⟨ht, hnl⟩
        subst ht
        have hrl : '\r' ∉ l := fun hm => hr (by simp [hm])
        have hrr : '\r' ∉ rest := fun hm => hr (by simp [hm])
        have hlen : (l ++ '\n' :: rest).length = l.length + 1 + rest.length := by
          simp
          omega
        by_cases hol : o ≤ l.length
        · unfold position_to_offset char_index_to_line_col
          dsimp only
          rw [ropeCharToLine_left hnl hol, ropeLineToChar_zero,
            rustLines_cons_line rest hnl hrl]
          simp only [posToOffsetAux, if_pos rfl, Nat.sub_zero]
          rw [strByteLen_eq_length (fun c hc => hascii c (by simp [hc]))]
          exact Nat.min_eq_left hol
        · have ho' : o = l.length + 1 + (o - l.length - 1) := by omega
          have ho'le : o - l.length - 1 ≤ rest.length := by
            rw [hlen] at ho
            omega
          rw [ho']
          unfold position_to_offset char_index_to_line_col
          dsimp only
          rw [ropeCharToLine_right hnl, Nat.add_comm 1 _, ropeLineToChar_append hnl,
            rustLines_cons_line rest hnl hrl]
          have hcol : l.length + 1 + (o - l.length - 1) -
              (l.length + 1 + ropeLineToChar rest
                (ropeCharToLine rest (o - l.length - 1))) =
              (o - l.length - 1) -
                ropeLineToChar rest (ropeCharToLine rest (o - l.length - 1)) := by
            omega
          rw [hcol]
          simp only [posToOffsetAux, Nat.add_sub_cancel,
            if_neg (Nat.succ_ne_zero _)]
          rw [strByteLen_eq_length (fun c hc => hascii c (by simp [hc]))]
          have hr2 := ih rest (by rw [hlen] at hn; omega) hrr
            (fun c hc => hascii c (by simp [hc])) (o - l.length - 1) ho'le
          unfold position_to_offset char_index_to_line_col at hr2
          dsimp only at hr2
          rw [hr2]

/-- C3, amended: converting an offset `o ≤ len(text)` to (line, column) with
`char_index_to_line_col` and back with `position_to_offset` yields `o`
again — for every text whose only line-break character is `'\n'` and whose
characters are all single-byte UTF-8.  Both restrictions are forced:
`str::lines` strips `'\r'` before a line feed (and ropey recognizes further
break characters) while columns count it, and `position_to_offset` advances
and clamps by `line.len()` *byte* lengths while offsets, spans and rope
columns count characters, so carriage-return texts and multi-byte texts
both break the round trip. -/
theorem C3_offset_line_col_roundtrip (t : List Char) (o : Nat)
    (hbreaks : ∀ c ∈ t, isLineBreakChar c = true → c = '\n')
    (hbytes : ∀ c ∈ t, c.utf8Size = 1)
    (ho : o ≤ t.length) :
    position_to_offset t
      ⟨(char_index_to_line_col t o).1, (char_index_to_line_col t o).2⟩ = o :=
  roundtrip_aux t.length t (Nat.le_refl _)
    (fun hm => absurd (hbreaks '\r' hm (by decide)) (by decide)) hbytes o ho

/-- C3 counterexample: the round trip fails on general Unicode text, in two
ways.  On `"a\r\nb"`, offset 2 (the `'\n'` of the CRLF pair) converts to
line 0, column 2, but converting back yields 1 — the `'\r'` is counted by
the column yet stripped by `str::lines`.  And on the LF-only text `"é\nb"`,
offset 2 (the `'b'`) converts to line 1, column 0, but converting back
yields 3 — `position_to_offset` advances by the first line's *byte* length
(`"é".len() = 2`) plus one, while offsets count characters. -/
theorem C3_roundtrip_counterexample :
    position_to_offset (str "a\r\nb")
        ⟨(char_index_to_line_col (str "a\r\nb") 2).1,
          (char_index_to_line_col (str "a\r\nb") 2).2⟩ = 1 ∧
      (1 : Nat) ≠ 2 ∧ 2 ≤ (str "a\r\nb").length ∧
      position_to_offset (str "é\nb")
        ⟨(char_index_to_line_col (str "é\nb") 2).1,
          (char_index_to_line_col (str "é\nb") 2).2⟩ = 3 ∧
      (3 : Nat) ≠ 2 ∧ 2 ≤ (str "é\nb").length := by
  exact ⟨rfl, by decide, by decide, by decide, by decide, by decide⟩

/-- C3 witness: the round trip at offset 4 of the two-line text
`"ab\ncd"`. -/
theorem C3_offset_line_col_roundtrip_witness :
    position_to_offset (str "ab\ncd")
      ⟨(char_index_to_line_col (str "ab\ncd") 4).1,
        (char_index_to_line_col (str "ab\ncd") 4).2⟩ = 4 :=
  C3_offset_line_col_roundtrip (str "ab\ncd") 4 (by decide) (by decide)
    (by decide)

theorem posLeB_iff {a b : Position} :
    posLeB a b = true ↔
      a.line < b.line ∨ (a.line = b.line ∧ a.character ≤ b.character) := by
  simp [posLeB]

theorem posLeB_total (a b : Position) :
    posLeB a b = true ∨ posLeB b a = true := by
  rw [posLeB_iff, posLeB_iff]
  omega

theorem posLeB_trans {a b c : Position} (h1 : posLeB a b = true)
    (h2 : posLeB b c = true) : posLeB a c = true := by
  rw [posLeB_iff] at h1 h2 ⊢
  omega

theorem posLeB_origin (p : Position) : posLeB ⟨0, 0⟩ p = true := by
  rw [posLeB_iff]
  dsimp only
  omega

theorem mem_insertToken {x a : TokenInfo} {ys : List TokenInfo} :
    a ∈ insertToken x ys ↔ a = x ∨ a ∈ ys := by
  induction ys with
  | nil => simp [insertToken]
  | cons y ys ih =>
    unfold insertToken
    split
    · simp
    · simp only [List.mem_cons, ih]
      tauto

theorem insertToken_pairwise {x : TokenInfo} {ys : List TokenInfo}
    (h : ys.Pairwise (fun a b => posLeB a.range.start b.range.start = true)) :
    (insertToken x ys).Pairwise
      (fun a b => posLeB a.range.start b.range.start = true) := by
  induction ys with
  | nil => simp [insertToken]
  | cons y ys ih =>
    rcases List.pairwise_cons.mp h with ⟨hy, hys⟩
    unfold insertToken
    split
    · rename_i hle
      refine List.pairwise_cons.mpr ⟨?_, h⟩
      intro b hb
      rcases List.mem_cons.mp hb with rfl | hb
      · exact hle
      · exact posLeB_trans hle (hy b hb)
    · rename_i hnle
      have hyx : posLeB y.range.start x.range.start = true := by
        rcases posLeB_total x.range.start y.range.start with h1 | h1
        · exact absurd h1 hnle
        · exact h1
      refine List.pairwise_cons.mpr ⟨?_, ih hys⟩
      intro b hb
      rcases mem_insertToken.mp hb with rfl | hb
      · exact hyx
      · exact hy b hb

theorem sortTokens_pairwise (l : List TokenInfo) :
    (sortTokens l).Pairwise
      (fun a b => posLeB a.range.start b.range.start = true) := by
  induction l with
  | nil => simp [sortTokens]
  | cons x xs ih => exact insertToken_pairwise ih

theorem dedupAdjAux_sublist (prev : TokenInfo) (l : List TokenInfo) :
    (dedupAdjAux prev l).Sublist l := by
  induction l generalizing prev with
  | nil => simp [dedupAdjAux]
  | cons y ys ih =>
    unfold dedupAdjAux
    split
    · exact (ih prev).cons y
    · exact (ih y).cons₂ y

theorem dedupAdj_sublist (l : List TokenInfo) : (dedupAdj l).Sublist l := by
  cases l with
  | nil => simp [dedupAdj]
  | cons x xs => exact (dedupAdjAux_sublist x xs).cons₂ x

theorem dedupAdjAux_chain (prev : TokenInfo) (l : List TokenInfo) :
    List.Chain' (fun a b => sameRange b a = false)
      (prev :: dedupAdjAux prev l) := by
  induction l generalizing prev with
  | nil => simp [dedupAdjAux]
  | cons y ys ih =>
    unfold dedupAdjAux
    split
    · exact ih prev
    · rename_i hne
      exact List.chain'_cons.mpr ⟨Bool.eq_false_iff.mpr hne, ih y⟩

theorem dedupAdj_chain (l : List TokenInfo) :
    List.Chain' (fun a b => sameRange b a = false) (dedupAdj l) := by
  cases l with
  | nil => simp [dedupAdj]
  | cons x xs => exact dedupAdjAux_chain x xs

theorem encodeTokensAux_pos : ∀ (l : List TokenInfo) (pl ps : Nat)
    (tok : SemanticToken), tok ∈ encodeTokensAux pl ps l → 0 < tok.length := by
  intro l
  induction l with
  | nil =>
    intro pl ps tok h
    simp [encodeTokensAux] at h
  | cons ti rest ih =>
    intro pl ps tok h
    simp only [encodeTokensAux] at h
    split at h
    · exact ih _ _ tok h
    · rename_i hlen
      rcases List.mem_cons.mp h with rfl | h
      · exact Nat.pos_of_ne_zero hlen
      · exact ih _ _ tok h

theorem decode_encode : ∀ (l : List TokenInfo) (pl ps : Nat),
    (∀ ti ∈ l, posLeB ⟨pl, ps⟩ ti.range.start = true) →
    l.Pairwise (fun a b => posLeB a.range.start b.range.start = true) →
    decodeTokensAux pl ps (encodeTokensAux pl ps l) =
      (l.filter (fun ti =>
        decide (¬ ti.range.stop.character - ti.range.start.character = 0))).map
        (fun ti => ti.range.start) := by
  intro l
  induction l with
  | nil => intro pl ps h hp; rfl
  | cons ti rest ih =>
    intro pl ps h hp
    rcases List.pairwise_cons.mp hp with ⟨hti, hrest⟩
    have hle := h ti (List.mem_cons_self ti rest)
    obtain ⟨⟨⟨L, S⟩, en⟩, tty, tmod⟩ := ti
    rw [posLeB_iff] at hle
    try dsimp only at hle
    try dsimp only at hti
    simp only [encodeTokensAux]
    try dsimp only
    split
    · rename_i hlen
      rw [List.filter_cons_of_neg (by simpa using hlen)]
      exact ih pl ps (fun x hx => h x (List.mem_cons_of_mem _ hx)) hrest
    · rename_i hlen
      rw [List.filter_cons_of_pos (by simpa using hlen), List.map_cons]
      simp only [decodeTokensAux]
      try dsimp only
      have hIH := ih L S hti hrest
      by_cases h0 : L - pl = 0
      · have hpl : pl = L := by omega
        have hps : ps ≤ S := by omega
        simp only [h0, Nat.add_zero, eq_self_iff_true, if_true]
        have hadd : ps + (S - ps) = S := by omega
        rw [hadd, hpl]
        exact congrArg₂ List.cons rfl hIH
      · have hpl : pl + (L - pl) = L := by omega
        simp only [if_neg h0]
        rw [hpl]
        exact congrArg₂ List.cons rfl hIH

/-- C8: in every emitted semantic-token stream, the underlying sorted list
has ascending (line, startChar) positions, adjacent duplicate ranges are
removed by the dedup pass, zero-length tokens are dropped from the emitted
stream, and reconstructing absolute positions by integrating the deltas
reproduces the positions of the sorted, deduplicated, zero-length-filtered
token list exactly. -/
theorem C8_semantic_token_delta_encoding (ast : Program) (t : List Char) :
    decodeTokens (collect_semantic_tokens ast t) =
        ((dedupAdj (sortTokens (structuralTokenInfos ast t))).filter
          (fun ti =>
            decide (¬ ti.range.stop.character - ti.range.start.character = 0))).map
          (fun ti => ti.range.start) ∧
      ((dedupAdj (sortTokens (structuralTokenInfos ast t))).filter
          (fun ti =>
            decide (¬ ti.range.stop.character - ti.range.start.character = 0))).Pairwise
        (fun a b => posLeB a.range.start b.range.start = true) ∧
      List.Chain' (fun a b => sameRange b a = false)
        (dedupAdj (sortTokens (structuralTokenInfos ast t))) ∧
      ∀ tok ∈ collect_semantic_tokens ast t, 0 < tok.length := by
  have hpw : (dedupAdj (sortTokens (structuralTokenInfos ast t))).Pairwise
      (fun a b => posLeB a.range.start b.range.start = true) :=
    List.Pairwise.sublist (dedupAdj_sublist _) (sortTokens_pairwise _)
  refine ⟨?_, ?_, dedupAdj_chain _, ?_⟩
  · exact decode_encode _ 0 0 (fun ti _ => posLeB_origin ti.range.start) hpw
  · exact List.Pairwise.sublist (List.filter_sublist _) hpw
  · intro tok htok
    exact encodeTokensAux_pos _ 0 0 tok htok

/-- C8 witness: the encoding relation instantiated on the scenario program,
plus the positivity of the first emitted token's length. -/
theorem C8_semantic_token_delta_encoding_witness :
    decodeTokens (collect_semantic_tokens buyerProgram buyerText) =
        ((dedupAdj (sortTokens (structuralTokenInfos buyerProgram buyerText))).filter
          (fun ti =>
            decide (¬ ti.range.stop.character - ti.range.start.character = 0))).map
          (fun ti => ti.range.start) ∧
      0 < (⟨0, 6, 5, 7, 1⟩ : SemanticToken).length :=
  ⟨(C8_semantic_token_delta_encoding buyerProgram buyerText).1,
    (C8_semantic_token_delta_encoding buyerProgram buyerText).2.2.2
      ⟨0, 6, 5, 7, 1⟩ (by decide)⟩

theorem insertToken_length (x : TokenInfo) (ys : List TokenInfo) :
    (insertToken x ys).length = ys.length + 1 := by
  induction ys with
  | nil => rfl
  | cons y ys ih =>
    unfold insertToken
    split
    · rfl
    · simp [ih]

theorem sortTokens_length (l : List TokenInfo) :
    (sortTokens l).length = l.length := by
  induction l with
  | nil => rfl
  | cons x xs ih =>
    show (insertToken x (sortTokens xs)).length = _
    rw [insertToken_length, ih]
    rfl

theorem encodeTokensAux_length_le : ∀ (l : List TokenInfo) (pl ps : Nat),
    (encodeTokensAux pl ps l).length ≤ l.length := by
  intro l
  induction l with
  | nil => intro pl ps; exact Nat.le_refl 0
  | cons ti rest ih =>
    intro pl ps
    simp only [encodeTokensAux]
    split
    · exact Nat.le_succ_of_le (ih pl ps)
    · simpa using ih ti.range.start.line ti.range.start.character

/-- C1, amended: `collect_semantic_tokens` is a structural walk emitting at
most one token per top-level declaration, so the emitted stream never holds
more tokens than the program has parties, policies, types, assets and
transactions put together — in particular it is not the spec's linear sweep,
which also tokenizes identifier occurrences inside transaction bodies. -/
theorem C1_collect_tokens_structural_bound (ast : Program) (t : List Char) :
    (collect_semantic_tokens ast t).length ≤
      ast.parties.length + ast.policies.length + ast.types.length +
        ast.assets.length + ast.txs.length := by
  unfold collect_semantic_tokens encodeTokenInfos
  refine Nat.le_trans (encodeTokensAux_length_le _ 0 0) ?_
  refine Nat.le_trans ((dedupAdj_sublist _).length_le) ?_
  rw [sortTokens_length]
  unfold structuralTokenInfos
  simp only [List.length_append]
  have h1 := List.length_filterMap_le
    (fun party => (extract_identifier_after_keyword t party.span (str "party")
      party.name.value).map (fun range => (⟨range, TOKEN_PARTY, MOD_DECLARATION⟩ : TokenInfo)))
    ast.parties
  have h2 := List.length_filterMap_le
    (fun policy => (extract_identifier_after_keyword t policy.span (str "policy")
      policy.name.value).map (fun range => (⟨range, TOKEN_POLICY, MOD_DECLARATION⟩ : TokenInfo)))
    ast.policies
  have h3 := List.length_filterMap_le
    (fun typeDef => (extract_identifier_after_keyword t typeDef.span (str "type")
      typeDef.name.value).map (fun range => (⟨range, TOKEN_TYPE, MOD_DECLARATION⟩ : TokenInfo)))
    ast.types
  have h4 := List.length_filterMap_le
    (fun asset => (extract_identifier_after_keyword t asset.span (str "asset")
      asset.name).map (fun range => (⟨range, TOKEN_CLASS, MOD_DECLARATION⟩ : TokenInfo)))
    ast.assets
  have h5 := List.length_filterMap_le
    (fun tx => (extract_identifier_after_keyword t tx.span (str "tx")
      tx.name.value).map (fun range => (⟨range, TOKEN_TRANSACTION, MOD_DECLARATION⟩ : TokenInfo)))
    ast.txs
  omega

/-- C1 counterexample: on the scenario program, the structural walk emits 2
tokens (the `party Buyer;` and `tx Pay` declarations) while the spec's
linear sweep over every offset also tokenizes the `Buyer` occurrence inside
the input block, emitting 3 — so `collect_semantic_tokens` does not equal
the reference sweep, and hover (which resolves that occurrence) and
semantic tokens can disagree. -/
theorem C1_collect_tokens_ne_linear_sweep :
    collect_semantic_tokens buyerProgram buyerText ≠
      sweep_semantic_tokens buyerProgram buyerText := by
  decide

/-- C6: every parser error and every analyzer error maps to exactly one
diagnostic, always at ERROR severity, with the diagnostic's range the
line/column rendering of the error's reported span; an analyzer error's
source label defaults to `"tx3"` when absent; and a batch of analyzer errors
maps to a batch of diagnostics of the same length with the i-th diagnostic
translating the i-th error. -/
theorem C6_diagnostic_translation :
    (∀ (t : List Char) (e : ParseError),
      parse_error_to_diagnostic t e =
        ⟨span_to_lsp_range t e.span, some .error, some e.src, e.message⟩) ∧
      (∀ (t : List Char) (e : AnalyzeError),
        analyze_error_to_diagnostic t e =
          ⟨span_to_lsp_range t e.span, some .error,
            some (e.src.getD (str "tx3")), e.display⟩) ∧
      (∀ (t : List Char) (report : AnalyzeReport),
        (analyze_report_to_diagnostic t report).length =
          report.errors.length) ∧
      (∀ (t : List Char) (report : AnalyzeReport) (i : Nat)
        (h : i < report.errors.length),
        (analyze_report_to_diagnostic t report)[i]? =
          some (analyze_error_to_diagnostic t (report.errors.get ⟨i, h⟩))) := by
  refine ⟨fun t e => rfl, fun t e => rfl, fun t report => List.length_map _ _,
    fun t report i h => ?_⟩
  unfold analyze_report_to_diagnostic
  rw [List.getElem?_map, List.getElem?_eq_getElem h]
  rfl

/-- C6 witness: the translation facts instantiated on a concrete parser
error, a concrete analyzer error without a source label, and a singleton
report. -/
theorem C6_diagnostic_translation_witness :
    parse_error_to_diagnostic (str "x") ⟨Span.new 0 1, str "boom", str "p"⟩ =
        ⟨span_to_lsp_range (str "x") (Span.new 0 1), some .error, some (str "p"),
          str "boom"⟩ ∧
      analyze_error_to_diagnostic (str "x") ⟨Span.new 0 1, str "bad", none⟩ =
        ⟨span_to_lsp_range (str "x") (Span.new 0 1), some .error,
          some (str "tx3"), str "bad"⟩ ∧
      (analyze_report_to_diagnostic (str "x")
          ⟨[⟨Span.new 0 1, str "bad", none⟩]⟩).length = 1 ∧
      (analyze_report_to_diagnostic (str "x")
          ⟨[⟨Span.new 0 1, str "bad", none⟩]⟩)[0]? =
        some (analyze_error_to_diagnostic (str "x")
          ⟨Span.new 0 1, str "bad", none⟩) :=
  ⟨C6_diagnostic_translation.1 (str "x") ⟨Span.new 0 1, str "boom", str "p"⟩,
    C6_diagnostic_translation.2.1 (str "x") ⟨Span.new 0 1, str "bad", none⟩,
    C6_diagnostic_translation.2.2.1 (str "x") ⟨[⟨Span.new 0 1, str "bad", none⟩]⟩,
    C6_diagnostic_translation.2.2.2 (str "x")
      ⟨[⟨Span.new 0 1, str "bad", none⟩]⟩ 0 (by decide)⟩

/-- C7: for a stored document whose current text fails to parse, the
position-based queries — hover, goto-definition and full semantic tokens —
answer successfully with no result, while diagnostics production for that
same text still reports the parse error. -/
theorem C7_unparseable_document_queries
    (st : ServerState) (parse : ParseFn) (analyze : AnalyzeFn) (uri : Url)
    (position : Position) (t : List Char) (e : ParseError)
    (hdoc : st.documents uri = some t) (hparse : parse t = .error e) :
    hover st parse uri position = .ok none ∧
      goto_definition st parse uri position = .ok none ∧
      semantic_tokens_full st parse uri = .ok none ∧
      (process_document st parse analyze uri t).2 =
        [parse_error_to_diagnostic t e] :=
  ⟨by simp [hover, hdoc, hparse], by simp [goto_definition, hdoc, hparse],
    by simp [semantic_tokens_full, hdoc, hparse],
    by simp [process_document, hparse]⟩

/-- C7 witness: a store holding an unparseable document under a constantly
failing parser. -/
theorem C7_unparseable_document_queries_witness :
    hover ⟨fun _ => some (str "(")⟩
        (fun _ => .error ⟨Span.new 0 1, str "unterminated", str "tx3"⟩)
        (str "file:u") ⟨0, 0⟩ = .ok none ∧
      goto_definition ⟨fun _ => some (str "(")⟩
        (fun _ => .error ⟨Span.new 0 1, str "unterminated", str "tx3"⟩)
        (str "file:u") ⟨0, 0⟩ = .ok none ∧
      semantic_tokens_full ⟨fun _ => some (str "(")⟩
        (fun _ => .error ⟨Span.new 0 1, str "unterminated", str "tx3"⟩)
        (str "file:u") = .ok none ∧
      (process_document ⟨fun _ => some (str "(")⟩
          (fun _ => .error ⟨Span.new 0 1, str "unterminated", str "tx3"⟩)
          (fun _ => ⟨[]⟩) (str "file:u") (str "(")).2 =
        [parse_error_to_diagnostic (str "(")
          ⟨Span.new 0 1, str "unterminated", str "tx3"⟩] :=
  C7_unparseable_document_queries ⟨fun _ => some (str "(")⟩
    (fun _ => .error ⟨Span.new 0 1, str "unterminated", str "tx3"⟩)
    (fun _ => ⟨[]⟩) (str "file:u") ⟨0, 0⟩ (str "(")
    ⟨Span.new 0 1, str "unterminated", str "tx3"⟩ rfl rfl

/-- C10: for a URI absent from the document store (never opened, or removed
by `did_close`), hover, goto-definition and full semantic tokens each answer
successfully with no result, `document_symbol` answers successfully with an
empty symbol list, and `did_close` indeed leaves the closed URI absent. -/
theorem C10_absent_document_queries
    (st : ServerState) (parse : ParseFn) (uri : Url) (position : Position)
    (hdoc : st.documents uri = none) :
    hover st parse uri position = .ok none ∧
      goto_definition st parse uri position = .ok none ∧
      semantic_tokens_full st parse uri = .ok none ∧
      document_symbol st parse uri = .ok (some []) ∧
      ∀ (st2 : ServerState) (uri2 : Url),
        (did_close st2 uri2).documents uri2 = none :=
  ⟨by simp [hover, hdoc], by simp [goto_definition, hdoc],
    by simp [semantic_tokens_full, hdoc], by simp [document_symbol, hdoc],
    fun st2 uri2 => by simp [did_close]⟩

/-- C10 witness: the absent-document behavior on an empty store and a
single-document store after closing that document. -/
theorem C10_absent_document_queries_witness :
    hover ⟨fun _ => none⟩ (fun _ => .error ⟨Span.new 0 0, [], []⟩)
        (str "file:v") ⟨0, 0⟩ = .ok none ∧
      document_symbol ⟨fun _ => none⟩ (fun _ => .error ⟨Span.new 0 0, [], []⟩)
        (str "file:v") = .ok (some []) ∧
      (did_close ⟨fun _ => some (str "t")⟩ (str "file:v")).documents
        (str "file:v") = none :=
  ⟨(C10_absent_document_queries ⟨fun _ => none⟩
      (fun _ => .error ⟨Span.new 0 0, [], []⟩) (str "file:v") ⟨0, 0⟩ rfl).1,
    (C10_absent_document_queries ⟨fun _ => none⟩
      (fun _ => .error ⟨Span.new 0 0, [], []⟩) (str "file:v") ⟨0, 0⟩ rfl).2.2.2.1,
    (C10_absent_document_queries ⟨fun _ => none⟩
      (fun _ => .error ⟨Span.new 0 0, [], []⟩) (str "file:v") ⟨0, 0⟩ rfl).2.2.2.2
      ⟨fun _ => some (str "t")⟩ (str "file:v")⟩
